import Mathlib

/-!
# MyLoopPass: loop splitting and fixed-factor loop unrolling

A shallow embedding of `src/MyLoopPass.cpp` (classes `LoopSplit` and
`LoopUnrollTwice`, and the static helpers `MapValuesUsedInPHIs`, `CloneInstr`,
`UnrollLoop`, `myCloneLoopWithPreheader`).

The pass mutates LLVM IR in place.  Here the IR is an explicit value:

* an instruction is a record with a stable identity (`InstId`, standing for the
  `Instruction *`), an opcode, a result type (bit width) and an operand list;
* a basic block is an identity (`BlockId`) with its instruction list;
* a function is its block list in layout order, the use-lists of its instructions
  and two allocators for fresh identities;
* `LoopInfo` is the list of `Loop` records.

Every mutating C++ statement becomes a function from state to state; a statement
that would dereference a null pointer (or trip one of the source's own `assert`s)
makes the embedding return `none`.  The LLVM library routines the source calls
(`SplitBlock`, `CloneBasicBlock`, `remapInstructionsInBlocks`, the `Loop` and `LoopInfo`
queries, the `Instruction` and `BasicBlock` mutators) are embedded next to it with the
behaviour LLVM documents for them; LLVM's internal assertions are not part of it.
`Loop::isSafeToClone`, `Loop::getInductionVariable` and `Loop::getBounds` are taken as
oracle answers (`LoopAnalysis`).

The second half of the file gives the IR fragment an execution (`Func.run`), so that a
function can be compared before and after a transformation, and proves the properties.
-/

namespace LoopPass

abbrev InstId := Nat
abbrev BlockId := Nat
abbrev LoopId := Nat

/-! ## The IR data model -/

/-- Predicates of `icmp`. -/
inductive Pred where
  | eq | ne | ult | ule | ugt | uge | slt | sle | sgt | sge
  deriving DecidableEq, Repr

/-- Opcodes of the IR fragment: `call` stands for a call with an observable effect
(it records its arguments), `br` is conditional when it has three operands. -/
inductive Opcode where
  | phi | add | sub | mul | udiv | icmp (p : Pred) | call | br | ret
  deriving DecidableEq, Repr

/-- An `llvm::Value` as it appears in an operand slot. Constants are uniqued by type
and value, so structural equality is pointer equality. -/
inductive Value where
  | inst (id : InstId)
  | const (bits : Nat) (v : Nat)
  | arg (bits : Nat) (n : Nat)
  | block (b : BlockId)
  deriving DecidableEq, Repr

/-- An instruction. `ty` is the bit width of the result (0 for `void`).
For a `phi`, `operands` are the incoming values and `incoming` the matching
incoming blocks (LLVM keeps the blocks outside the operand list).
A conditional `br` has operands `[cond, ifTrue, ifFalse]`, an unconditional one `[dest]`. -/
structure Inst where
  id : InstId
  op : Opcode
  ty : Nat
  operands : List Value
  incoming : List BlockId
  deriving DecidableEq, Repr

structure Block where
  id : BlockId
  insts : List Inst
  deriving DecidableEq, Repr

/-- One entry of a use-list: instruction `user` holds instruction `val` in operand
slot `operandNo`. -/
structure Use where
  val : InstId
  user : InstId
  operandNo : Nat
  deriving DecidableEq, Repr

/-- A function: blocks in layout order (the first is the entry block), the use edges
of instruction values (for each value, its entries appear in use-list order, the
order in which `Value::users()` iterates), and the allocators. -/
structure Func where
  blocks : List Block
  uses : List Use
  nextInst : InstId
  nextBlock : BlockId
  deriving DecidableEq, Repr

/-- The `llvm::Loop` record kept by `LoopInfo`; the header is the first block. -/
structure Loop where
  id : LoopId
  blocks : List BlockId
  parentLoop : Option LoopId
  subLoops : List LoopId
  deriving DecidableEq, Repr

/-- `llvm::LoopInfo`: every allocated loop, the top-level loops, the map from a block to
its innermost loop, and the allocator. -/
structure LoopInfo where
  loops : List Loop
  topLevelLoops : List LoopId
  bbMap : List (BlockId × LoopId)
  nextLoop : LoopId
  deriving DecidableEq, Repr

/-- What `Loop::getBounds` returns (`Loop::LoopBounds`); the step value may be null. -/
structure LoopBounds where
  initialIVValue : Value
  stepInst : InstId
  stepValue : Option Value
  finalIVValue : Value
  deriving DecidableEq, Repr

/-- Answers of the analyses that the pass consults as oracles for the loop it is run on:
`Loop::isSafeToClone`, `Loop::getInductionVariable(SE)` and `Loop::getBounds(SE)`. -/
structure LoopAnalysis where
  isSafeToClone : Bool
  inductionVariable : Option InstId
  bounds : Option LoopBounds
  deriving DecidableEq, Repr

/-- The mutable state the pass works on: the function and the loop nest. -/
structure State where
  F : Func
  LI : LoopInfo
  deriving DecidableEq, Repr

/-! ## List helpers -/

/-- Insert `xs` in front of the first element satisfying `p` (at the end when there is none). -/
def insertBeforeP {α : Type} (p : α → Bool) (xs : List α) : List α → List α
  | [] => xs
  | y :: ys => if p y then xs ++ y :: ys else y :: insertBeforeP p xs ys

/-- Insert `xs` right after the first element satisfying `p`. -/
def insertAfterP {α : Type} (p : α → Bool) (xs : List α) : List α → List α
  | [] => xs
  | y :: ys => if p y then y :: (xs ++ ys) else y :: insertAfterP p xs ys

/-- The list from the first element satisfying `p` on. -/
def dropUntil {α : Type} (p : α → Bool) : List α → List α
  | [] => []
  | y :: ys => if p y then y :: ys else dropUntil p ys

/-- The list up to, and without, the first element satisfying `p`. -/
def takeUntil {α : Type} (p : α → Bool) : List α → List α
  | [] => []
  | y :: ys => if p y then [] else y :: takeUntil p ys

/-- Replace the first occurrence of `b` by `h`. -/
def replaceFirst {α : Type} [DecidableEq α] (b h : α) : List α → List α
  | [] => []
  | x :: xs => if x = b then h :: xs else x :: replaceFirst b h xs

/-- Assignment `Map[k] = v` of an insertion-ordered map (`MapVector`, and enough for
`ValueMap`): overwrite in place, or append a new entry. -/
def mapSet {κ ν : Type} [DecidableEq κ] (m : List (κ × ν)) (k : κ) (v : ν) : List (κ × ν) :=
  if m.any (fun e => decide (e.1 = k)) then
    m.map (fun e => if e.1 = k then (k, v) else e)
  else m ++ [(k, v)]

/-- Lookup `Map.find(k)`. -/
def mapFind {κ ν : Type} [DecidableEq κ] (m : List (κ × ν)) (k : κ) : Option ν :=
  (m.find? (fun e => decide (e.1 = k))).map (fun e => e.2)

/-- Monadic left fold in `Option`, by structural recursion. -/
def foldOpt {α β : Type} (g : β → α → Option β) : β → List α → Option β
  | b, [] => some b
  | b, x :: xs => match g b x with
    | some b1 => foldOpt g b1 xs
    | none => none

/-! ## IR primitives -/

def Opcode.isTerminator : Opcode → Bool
  | .br => true
  | .ret => true
  | _ => false

def Opcode.isPhi : Opcode → Bool
  | .phi => true
  | _ => false

def Opcode.isICmp : Opcode → Bool
  | .icmp _ => true
  | _ => false

/-- Value of `ConstantInt::get(Type, V)`: `APInt(bits, V)` keeps the low `bits` bits. -/
def ConstantInt.get (bits : Nat) (v : Nat) : Value := .const bits (v % 2 ^ bits)

/-- `dyn_cast<Constant>(V)`. -/
def Value.dynCastConstant : Value → Option Value
  | .const b v => some (.const b v)
  | _ => none

/-- `BasicBlock::getTerminator`: the last instruction when it is a terminator. -/
def Block.getTerminator (B : Block) : Option Inst :=
  match B.insts.getLast? with
  | some I => if I.op.isTerminator then some I else none
  | none => none

/-- `BasicBlock::getFirstNonPHI`. -/
def Block.getFirstNonPHI (B : Block) : Option Inst :=
  B.insts.find? (fun I => !I.op.isPhi)

/-- The instructions of a block list, in layout order. -/
def instsOf (bs : List Block) : List Inst :=
  bs.foldr (fun B acc => B.insts ++ acc) []

namespace Func

def allInsts (f : Func) : List Inst := instsOf f.blocks

def getBlock (f : Func) (b : BlockId) : Option Block :=
  f.blocks.find? (fun B => decide (B.id = b))

def getInst (f : Func) (i : InstId) : Option Inst :=
  f.allInsts.find? (fun I => decide (I.id = i))

/-- `Instruction::getParent`. -/
def getParent (f : Func) (i : InstId) : Option BlockId :=
  (f.blocks.find? (fun B => B.insts.any (fun I => decide (I.id = i)))).map (fun B => B.id)

/-- `Value::getType` as a bit width; a block (label) has none. -/
def typeOf (f : Func) : Value → Option Nat
  | .inst i => (f.getInst i).map (fun I => I.ty)
  | .const b _ => some b
  | .arg b _ => some b
  | .block _ => none

def mapBlock (f : Func) (b : BlockId) (g : List Inst → List Inst) : Func :=
  { f with blocks := f.blocks.map (fun B => if B.id = b then { B with insts := g B.insts } else B) }

def mapInst (f : Func) (i : InstId) (g : Inst → Inst) : Func :=
  { f with blocks := f.blocks.map (fun B =>
      { B with insts := B.insts.map (fun I => if I.id = i then g I else I) }) }

/-- `Value::addUse`: a new use goes to the front of the value's use-list. -/
def addUse (f : Func) (v : Value) (user : InstId) (n : Nat) : Func :=
  match v with
  | .inst i => { f with uses := ⟨i, user, n⟩ :: f.uses }
  | _ => f

/-- `Use::removeFromList`. -/
def removeUse (f : Func) (v : Value) (user : InstId) (n : Nat) : Func :=
  match v with
  | .inst i => { f with uses := f.uses.erase ⟨i, user, n⟩ }
  | _ => f

/-- `Value::users()`, in use-list order. -/
def users (f : Func) (i : InstId) : List InstId :=
  (f.uses.filter (fun u => decide (u.val = i))).map (fun u => u.user)

/-- `User::setOperand(n, v)`. -/
def setOperand (f : Func) (user : InstId) (n : Nat) (v : Value) : Option Func :=
  match f.getInst user with
  | none => none
  | some I =>
    match I.operands.get? n with
    | none => none
    | some old =>
      let f1 := (f.removeUse old user n).addUse v user n
      some (f1.mapInst user (fun J => { J with operands := J.operands.set n v }))

/-- `User::replaceUsesOfWith(From, To)`: every operand equal to `From` is set to `To`,
slot by slot; nothing happens when `From == To`. -/
def replaceUsesOfWith (f : Func) (user : InstId) (From To : Value) : Option Func :=
  if From = To then some f else
  match f.getInst user with
  | none => none
  | some I =>
    foldOpt (fun g n =>
      match g.getInst user with
      | none => none
      | some J => if J.operands.get? n = some From then g.setOperand user n To else some g)
      f (List.range I.operands.length)

/-- Register the operands of a freshly created instruction in their use-lists,
operand 0 first. -/
def addUses (f : Func) (I : Inst) : Func :=
  (List.range I.operands.length).foldl
    (fun g n => match I.operands.get? n with
      | some v => g.addUse v I.id n
      | none => g) f

/-- `BasicBlock::Create(Context, "", F)`: a new empty block at the end of the function. -/
def createBlock (f : Func) : Func × BlockId :=
  ({ f with blocks := f.blocks ++ [⟨f.nextBlock, []⟩], nextBlock := f.nextBlock + 1 }, f.nextBlock)

/-- `BasicBlock::moveBefore(MovePos)`. -/
def moveBlockBefore (f : Func) (b pos : BlockId) : Option Func :=
  match f.getBlock b with
  | none => none
  | some B =>
    let rest := f.blocks.filter (fun X => !decide (X.id = b))
    if rest.any (fun X => decide (X.id = pos)) then
      some { f with blocks := insertBeforeP (fun X => decide (X.id = pos)) [B] rest }
    else none

/-- Unlink an instruction from its block. -/
def unlinkInst (f : Func) (i : InstId) : Func :=
  { f with blocks := f.blocks.map (fun B =>
      { B with insts := B.insts.filter (fun I => !decide (I.id = i)) }) }

/-- `Instruction::moveBefore(MovePos)`. -/
def moveBefore (f : Func) (i pos : InstId) : Option Func :=
  match f.getInst i, f.getParent pos with
  | some I, some b =>
    some ((f.unlinkInst i).mapBlock b (insertBeforeP (fun X => decide (X.id = pos)) [I]))
  | _, _ => none

/-- `Instruction::moveAfter(MovePos)`. -/
def moveAfter (f : Func) (i pos : InstId) : Option Func :=
  match f.getInst i, f.getParent pos with
  | some I, some b =>
    some ((f.unlinkInst i).mapBlock b (insertAfterP (fun X => decide (X.id = pos)) [I]))
  | _, _ => none

/-- `I.clone()` followed by `Dest->getInstList().push_back(NewInst)`: a copy of `I`
with a fresh identity and the same operands, appended to `Dest`. -/
def cloneInst (f : Func) (i : InstId) (dest : BlockId) : Option (Func × InstId) :=
  match f.getInst i, f.getBlock dest with
  | some I, some _ =>
    let N : Inst := { I with id := f.nextInst }
    let f1 := { f with nextInst := f.nextInst + 1 }
    some ((f1.mapBlock dest (fun l => l ++ [N])).addUses N, N.id)
  | _, _ => none

/-- `BranchInst::Create(IfTrue, InsertAtEnd)`: an unconditional branch appended to a block. -/
def createBr (f : Func) (dest atEnd : BlockId) : Option (Func × InstId) :=
  match f.getBlock atEnd with
  | none => none
  | some _ =>
    let N : Inst := ⟨f.nextInst, .br, 0, [.block dest], []⟩
    some (({ f with nextInst := f.nextInst + 1 }).mapBlock atEnd (fun l => l ++ [N]), N.id)

/-- `BinaryOperator::Create(Op, S1, S2, "", InsertBefore)`: the result type is that of
`S1`; the new instruction is linked in front of `InsertBefore`. -/
def createBinaryOperator (f : Func) (op : Opcode) (S1 S2 : Value) (InsertBefore : InstId) :
    Option (Func × InstId) :=
  match f.typeOf S1, f.getParent InsertBefore with
  | some t, some b =>
    let N : Inst := ⟨f.nextInst, op, t, [S1, S2], []⟩
    let f1 := { f with nextInst := f.nextInst + 1 }
    some ((f1.mapBlock b (insertBeforeP (fun X => decide (X.id = InsertBefore)) [N])).addUses N,
      N.id)
  | _, _ => none

/-- Predecessor edges of a block: one entry per use of the block by a terminator
instruction (`pred_begin`/`pred_end`). -/
def predecessors (f : Func) (b : BlockId) : List BlockId :=
  f.blocks.foldr (fun B acc =>
    (B.insts.foldr (fun I acc1 =>
      if I.op.isTerminator then
        (I.operands.filter (fun v => decide (v = .block b))).map (fun _ => B.id) ++ acc1
      else acc1) []) ++ acc) []

/-- Successors of a block: the block operands of its terminator. -/
def successors (f : Func) (b : BlockId) : List BlockId :=
  match f.getBlock b with
  | none => []
  | some B =>
    match B.getTerminator with
    | none => []
    | some T => T.operands.filterMap (fun v => match v with
        | .block d => some d
        | _ => none)

/-- `BasicBlock::getSinglePredecessor`: null unless there is exactly one predecessor edge. -/
def getSinglePredecessor (f : Func) (b : BlockId) : Option BlockId :=
  match f.predecessors b with
  | [p] => some p
  | _ => none

end Func

/-! ## Loop queries (`llvm::Loop`, `llvm::LoopInfo`) -/

namespace Loop

def getHeader (L : Loop) : Option BlockId := L.blocks.head?

def contains (L : Loop) (b : BlockId) : Bool := L.blocks.any (fun x => decide (x = b))

def getNumBlocks (L : Loop) : Nat := L.blocks.length

/-- `Loop::getLoopLatch`: the only in-loop predecessor edge of the header, else null. -/
def getLoopLatch (f : Func) (L : Loop) : Option BlockId :=
  match L.getHeader with
  | none => none
  | some h =>
    match (f.predecessors h).filter (fun p => L.contains p) with
    | [p] => some p
    | _ => none

/-- `Loop::getLoopPredecessor`: the block all out-of-loop predecessor edges of the header
come from, else null. -/
def getLoopPredecessor (f : Func) (L : Loop) : Option BlockId :=
  match L.getHeader with
  | none => none
  | some h =>
    match (f.predecessors h).filter (fun p => !L.contains p) with
    | [] => none
    | p :: ps => if ps.all (fun q => decide (q = p)) then some p else none

/-- `Loop::getLoopPreheader`: the loop predecessor when the header is its only successor. -/
def getLoopPreheader (f : Func) (L : Loop) : Option BlockId :=
  match getLoopPredecessor f L with
  | none => none
  | some out =>
    match f.successors out with
    | [_] => some out
    | _ => none

/-- `Loop::getExitingBlocks`: the loop blocks with a successor outside the loop. -/
def getExitingBlocks (f : Func) (L : Loop) : List BlockId :=
  L.blocks.filter (fun b => (f.successors b).any (fun d => !L.contains d))

/-- `Loop::getExitBlocks`: one entry per edge that leaves the loop. -/
def getExitBlocks (f : Func) (L : Loop) : List BlockId :=
  L.blocks.foldr (fun b acc => (f.successors b).filter (fun d => !L.contains d) ++ acc) []

/-- `Loop::getExitingBlock`: the exiting block when there is exactly one, else null. -/
def getExitingBlock (f : Func) (L : Loop) : Option BlockId :=
  match getExitingBlocks f L with
  | [b] => some b
  | _ => none

/-- `Loop::getExitBlock`: the exit block when `getExitBlocks` has exactly one entry, else null. -/
def getExitBlock (f : Func) (L : Loop) : Option BlockId :=
  match getExitBlocks f L with
  | [b] => some b
  | _ => none

/-- `Loop::hasDedicatedExits`: every predecessor of every exit block is in the loop. -/
def hasDedicatedExits (f : Func) (L : Loop) : Bool :=
  (getExitBlocks f L).all (fun e => (f.predecessors e).all (fun p => L.contains p))

/-- `Loop::isLoopSimplifyForm`: a preheader, a single backedge and dedicated exits. -/
def isLoopSimplifyForm (f : Func) (L : Loop) : Bool :=
  (getLoopPreheader f L).isSome && (getLoopLatch f L).isSome && hasDedicatedExits f L

end Loop

namespace LoopInfo

def getLoop (LI : LoopInfo) (l : LoopId) : Option Loop :=
  LI.loops.find? (fun L => decide (L.id = l))

/-- `LoopInfo::getLoopFor`: the innermost loop a block belongs to. -/
def getLoopFor (LI : LoopInfo) (b : BlockId) : Option LoopId := mapFind LI.bbMap b

def mapLoop (LI : LoopInfo) (l : LoopId) (g : Loop → Loop) : LoopInfo :=
  { LI with loops := LI.loops.map (fun L => if L.id = l then g L else L) }

/-- The loop and its ancestors, innermost first; `fuel` bounds the walk up the parents. -/
def ancestors (LI : LoopInfo) : Nat → LoopId → List LoopId
  | 0, _ => []
  | fuel + 1, l =>
    match LI.getLoop l with
    | none => []
    | some L =>
      match L.parentLoop with
      | none => [l]
      | some p => l :: ancestors LI fuel p

/-- `Loop::addBasicBlockToLoop(NewBB, LI)`: records the loop as the innermost loop of the
block and appends the block to the loop and to all its parents. -/
def addBasicBlockToLoop (LI : LoopInfo) (l : LoopId) (b : BlockId) : Option LoopInfo :=
  match LI.getLoop l with
  | none => none
  | some _ =>
    let LI1 := { LI with bbMap := mapSet LI.bbMap b l }
    some ((LI1.ancestors LI1.loops.length l).foldl
      (fun acc a => acc.mapLoop a (fun L => { L with blocks := L.blocks ++ [b] })) LI1)

/-- `LoopInfo::AllocateLoop`: a fresh empty loop, not yet in the nest. -/
def AllocateLoop (LI : LoopInfo) : LoopInfo × LoopId :=
  ({ LI with loops := LI.loops ++ [⟨LI.nextLoop, [], none, []⟩], nextLoop := LI.nextLoop + 1 },
    LI.nextLoop)

/-- `Loop::addChildLoop(NewChild)`. -/
def addChildLoop (LI : LoopInfo) (parentL child : LoopId) : LoopInfo :=
  (LI.mapLoop child (fun L => { L with parentLoop := some parentL })).mapLoop parentL
    (fun L => { L with subLoops := L.subLoops ++ [child] })

/-- `LoopInfo::addTopLevelLoop(New)`. -/
def addTopLevelLoop (LI : LoopInfo) (l : LoopId) : LoopInfo :=
  { LI with topLevelLoops := LI.topLevelLoops ++ [l] }

/-- `Loop::moveToHeader(BB)`: the block trades places with the first block of the loop. -/
def moveToHeader (LI : LoopInfo) (l : LoopId) (b : BlockId) : LoopInfo :=
  LI.mapLoop l (fun L =>
    match L.blocks with
    | [] => L
    | h :: rest =>
      if h = b then L
      else if rest.any (fun x => decide (x = b)) then
        { L with blocks := b :: replaceFirst b h rest }
      else L)

end LoopInfo

/-! ## Candidacy (`LoopSplit::isCandidate`, `LoopUnrollTwice::isCandidate`) -/

/-- `LoopSplit::isCandidate` (src/MyLoopPass.cpp 57-84). -/
def LoopSplit.isCandidate (A : LoopAnalysis) (F : Func) (L : Loop) : Bool :=
  -- Require loops with preheaders and dedicated exits.
  if !L.isLoopSimplifyForm F then false
  -- Since we use cloning to split the loop, it has to be safe to clone.
  else if !A.isSafeToClone then false
  -- If the loop has multiple exiting blocks, do not split.
  else if !(L.getExitingBlock F).isSome then false
  -- If loop has multiple exit blocks, do not split.
  else if !(L.getExitBlock F).isSome then false
  -- Only split innermost loops.
  else if !L.subLoops.isEmpty then false
  else if !A.bounds.isSome then false
  else true

/-- `LoopUnrollTwice::isCandidate` (src/MyLoopPass.cpp 407-435). -/
def LoopUnrollTwice.isCandidate (A : LoopAnalysis) (F : Func) (L : Loop) : Bool :=
  if !L.isLoopSimplifyForm F then false
  else if !A.isSafeToClone then false
  else if !(L.getExitingBlock F).isSome then false
  else if !(L.getExitBlock F).isSome then false
  else if !L.subLoops.isEmpty then false
  -- Only unroll loop containing header and latch blocks.
  else if L.getNumBlocks > 2 then false
  else true

/-! ## `LoopSplit::computeSplitPoint` -/

/-- `LoopSplit::computeSplitPoint` (src/MyLoopPass.cpp 132-145): emits
`Sub = sub Final, Initial` and `udiv Sub, 2` in front of `InsertBefore`, the constant 2
taken in the type of the final value, and returns the `udiv`. -/
def LoopSplit.computeSplitPoint (A : LoopAnalysis) (F : Func) (InsertBefore : InstId) :
    Option (Func × InstId) :=
  match A.bounds with
  | none => none
  | some Bounds =>
    let IVInitialVal := Bounds.initialIVValue
    let IVFinalVal := Bounds.finalIVValue
    match F.createBinaryOperator .sub IVFinalVal IVInitialVal InsertBefore with
    | none => none
    | some (F1, Sub) =>
      match F1.typeOf IVFinalVal with
      | none => none
      | some t => F1.createBinaryOperator .udiv (.inst Sub) (ConstantInt.get t 2) InsertBefore

/-! ## `MapValuesUsedInPHIs`, `CloneInstr`, `UnrollLoop` -/

/-- `ValueToValueMapTy`. -/
abbrev ValueToValueMapTy := List (Value × Value)

/-- `PHIRemap = SmallMapVector<Instruction *, std::pair<PHINode *, Instruction *>, 8>`. -/
abbrev PHIRemap := List (InstId × (InstId × InstId))

/-- `MapValuesUsedInPHIs` (src/MyLoopPass.cpp 246-251): for every instruction of the block
and every user of it that is a phi, `Map[&I] = (PHI, &I)`. -/
def MapValuesUsedInPHIs (F : Func) (BB : Block) (Map : PHIRemap) : PHIRemap :=
  BB.insts.foldl (fun M I =>
    (F.users I.id).foldl (fun M1 U =>
      match F.getInst U with
      | some UI => if UI.op.isPhi then mapSet M1 I.id (U, I.id) else M1
      | none => M1) M) Map

/-- The operand loop shared by `CloneInstr` and the exit-phi fix-up of `UnrollLoop`:
every operand that is an instruction with an entry in `VMap` is set to the mapped value. -/
def remapOperandsThroughVMap (F : Func) (VMap : ValueToValueMapTy) (user : InstId) :
    Option Func :=
  match F.getInst user with
  | none => none
  | some N =>
    foldOpt (fun g i =>
      match g.getInst user with
      | none => none
      | some J =>
        match J.operands.get? i with
        | some (.inst x) =>
          match mapFind VMap (.inst x) with
          | some v => g.setOperand user i v
          | none => some g
        | _ => some g) F (List.range N.operands.length)

/-- `CloneInstr` (src/MyLoopPass.cpp 253-285). Returns the function, the two maps and the
new instruction. -/
def CloneInstr (F : Func) (I : InstId) (VMap : ValueToValueMapTy) (LoopPHIRemap : PHIRemap)
    (Dest : BlockId) : Option (Func × ValueToValueMapTy × PHIRemap × InstId) :=
  -- NewInst = I.clone(); Dest->getInstList().push_back(NewInst);
  match F.cloneInst I Dest with
  | none => none
  | some (F1, NewInst) =>
    -- VMap[&I] = NewInst;
    let VMap1 := mapSet VMap (.inst I) (.inst NewInst)
    -- Update operands to reflect values generated by the new instructions.
    match remapOperandsThroughVMap F1 VMap1 NewInst with
    | none => none
    | some F2 =>
      -- If I is used in a PHI, replace PHI in NewInst by the running replacement.
      match mapFind LoopPHIRemap I with
      | some (PHI, Replacement) =>
        match F2.replaceUsesOfWith NewInst (.inst PHI) (.inst Replacement) with
        | none => none
        | some F3 => some (F3, VMap1, mapSet LoopPHIRemap I (PHI, NewInst), NewInst)
      | none => some (F2, VMap1, LoopPHIRemap, NewInst)

/-- The local variables of `UnrollLoop` that change from stage to stage. -/
structure UnrollVars where
  S : State
  VMap : ValueToValueMapTy
  LoopPHIRemap : PHIRemap
  Last : Option InstId
  IndVarNew : InstId
  deriving DecidableEq, Repr

/-- The inner loop of `UnrollLoop` (lines 333-342): clone the non-phi instructions among
the given ones into `NewHeader`, in order. -/
def cloneHeaderInsts (NewHeader : BlockId) :
    Func × ValueToValueMapTy × PHIRemap × Option InstId → List Inst →
    Option (Func × ValueToValueMapTy × PHIRemap × Option InstId)
  | acc, [] => some acc
  | (F, VMap, Remap, Last), I :: rest =>
    if I.op.isPhi then cloneHeaderInsts NewHeader (F, VMap, Remap, Last) rest
    else
      match CloneInstr F I.id VMap Remap NewHeader with
      | none => none
      | some (F1, VMap1, Remap1, NewInst) =>
        cloneHeaderInsts NewHeader (F1, VMap1, Remap1, some NewInst) rest

/-- One pass through the body of the stage loop of `UnrollLoop` (lines 311-345). -/
def unrollStage (L : LoopId) (BB : BlockId) (LatchPtr : Option BlockId)
    (NumberOfInstructions : Nat) (IndVar IndStepInst : InstId) (u : UnrollVars) :
    Option UnrollVars :=
  -- BasicBlock *NewHeader = BasicBlock::Create(BB->getContext(), "", BB->getParent());
  let (F0, NewHeader) := u.S.F.createBlock
  -- BasicBlock *OldPred = Latch->getSinglePredecessor();
  match LatchPtr with
  | none => none
  | some Latch =>
  let OldPred := F0.getSinglePredecessor Latch
  -- NewHeader->moveBefore(Latch);
  match F0.moveBlockBefore NewHeader Latch with
  | none => none
  | some F1 =>
  -- OldPred->getTerminator()->replaceUsesOfWith(Latch, NewHeader);
  match OldPred.bind F1.getBlock with
  | none => none
  | some OldPredBB =>
  match OldPredBB.getTerminator with
  | none => none
  | some OldTerm =>
  match F1.replaceUsesOfWith OldTerm.id (.block Latch) (.block NewHeader) with
  | none => none
  | some F2 =>
  -- Instruction *Term = BranchInst::Create(Latch, NewHeader);
  match F2.createBr Latch NewHeader with
  | none => none
  | some (F3, Term) =>
  -- L.addBasicBlockToLoop(NewHeader, LI);
  match u.S.LI.addBasicBlockToLoop L NewHeader with
  | none => none
  | some LI1 =>
  -- auto IndInstUpdated = IndStepInst.clone(); NewHeader->getInstList().push_back(..);
  match F3.cloneInst IndStepInst NewHeader with
  | none => none
  | some (F4, IndInstUpdated) =>
  -- IndInstUpdated->moveBefore(Term);
  match F4.moveBefore IndInstUpdated Term with
  | none => none
  | some F5 =>
  -- IndInstUpdated->replaceUsesOfWith(IndVar, IndVarNew);
  match F5.replaceUsesOfWith IndInstUpdated (.inst IndVar) (.inst u.IndVarNew) with
  | none => none
  | some F6 =>
  -- VMap[IndVar] = IndInstUpdated; IndVarNew = IndInstUpdated;
  let VMap1 := mapSet u.VMap (.inst IndVar) (.inst IndInstUpdated)
  -- Clone any non PHI and non terminator instruction of the original block
  match F6.getBlock BB with
  | none => none
  | some HeaderBB =>
  match cloneHeaderInsts NewHeader (F6, VMap1, u.LoopPHIRemap, u.Last)
      (HeaderBB.insts.take (NumberOfInstructions - 1)) with
  | none => none
  | some (F7, VMap2, Remap2, Last2) =>
  -- Term->moveAfter(Last);
  match Last2 with
  | none => none
  | some Last3 =>
  match F7.moveAfter Term Last3 with
  | none => none
  | some F8 => some ⟨⟨F8, LI1⟩, VMap2, Remap2, some Last3, IndInstUpdated⟩

/-- The stage loop `for (unsigned i = 0; i < UF - 1; i++)`. -/
def unrollStages (L : LoopId) (BB : BlockId) (Latch : Option BlockId)
    (NumberOfInstructions : Nat) (IndVar IndStepInst : InstId) :
    Nat → UnrollVars → Option UnrollVars
  | 0, u => some u
  | n + 1, u =>
    match unrollStage L BB Latch NumberOfInstructions IndVar IndStepInst u with
    | none => none
    | some u1 => unrollStages L BB Latch NumberOfInstructions IndVar IndStepInst n u1

/-- Number of trips of the stage loop: `UF - 1` compared as `unsigned`. -/
def stageCount (UF : Nat) : Nat := (UF + 4294967295) % 4294967296

/-- `UnrollLoop` (src/MyLoopPass.cpp 287-382). `A` stands for the `ScalarEvolution`
based queries on `L`. -/
def UnrollLoop (A : LoopAnalysis) (S : State) (L : LoopId) (UF : Nat) (Bounds : LoopBounds) :
    Option State :=
  match S.LI.getLoop L with
  | none => none
  | some Lp =>
  -- BasicBlock *BB = L.getHeader();
  match Lp.getHeader.bind S.F.getBlock with
  | none => none
  | some BBk =>
  let BB := BBk.id
  -- BasicBlock *Latch = L.getLoopLatch();
  let Latch := Lp.getLoopLatch S.F
  -- Instruction *Last = BB->getFirstNonPHI();
  let Last := BBk.getFirstNonPHI.map (fun I => I.id)
  -- int NumberOfInstructions = BB->size();
  let NumberOfInstructions := BBk.insts.length
  -- PHINode *IndVar = L.getInductionVariable(SE);  (bounds exist only with an induction
  -- variable, so a null answer is taken as a failure)
  match A.inductionVariable with
  | none => none
  | some IndVar =>
  let Step := Bounds.stepValue
  let IndStepInst := Bounds.stepInst
  -- MapValuesUsedInPHIs(BB, LoopPHIRemap);
  let LoopPHIRemap := MapValuesUsedInPHIs S.F BBk []
  match unrollStages L BB Latch NumberOfInstructions IndVar IndStepInst (stageCount UF)
      ⟨S, [], LoopPHIRemap, Last, IndVar⟩ with
  | none => none
  | some u =>
  -- Update PHIs in header to use the new SSA values generated by the unrolling.
  match foldOpt (fun g e => g.replaceUsesOfWith e.2.1 (.inst e.1) (.inst e.2.2))
      u.S.F u.LoopPHIRemap with
  | none => none
  | some F1 =>
  -- Update LCSSA Phis: for (Instruction &I : *L.getExitBlock())
  match (u.S.LI.getLoop L).bind (fun L1 => L1.getExitBlock F1) with
  | none => none
  | some Exit =>
  match F1.getBlock Exit with
  | none => none
  | some ExitBB =>
  match foldOpt (fun g I => if I.op.isPhi then remapOperandsThroughVMap g u.VMap I.id
      else some g) F1 ExitBB.insts with
  | none => none
  | some F2 =>
  -- Constant *ConstStep = dyn_cast<Constant>(Step); ConstStep->getUniqueInteger();
  match Step with
  | none => none
  | some StepV =>
  match StepV.dynCastConstant with
  | none => none
  | some _ =>
  -- auto ConstToMult = ConstantInt::get(F->getContext(), APInt(32, UF));
  let ConstToMult := ConstantInt.get 32 UF
  -- auto *Add = BinaryOperator::Create(Instruction::Mul, Step, ConstToMult, "", &IndStepInst);
  match F2.createBinaryOperator .mul StepV ConstToMult IndStepInst with
  | none => none
  | some (F3, Add) =>
  -- IndStepInst.replaceUsesOfWith(Step, Add);
  match F3.replaceUsesOfWith IndStepInst StepV (.inst Add) with
  | none => none
  | some F4 => some ⟨F4, u.S.LI⟩

/-- `LoopUnrollTwice::run` (src/MyLoopPass.cpp 384-405): the result flag and the state. -/
def LoopUnrollTwice.run (A : LoopAnalysis) (S : State) (L : LoopId) : Option (Bool × State) :=
  match S.LI.getLoop L with
  | none => none
  | some Lp =>
    -- Optional<Loop::LoopBounds> Bounds = L.getBounds(SE);
    match A.bounds with
    | none => some (false, S)
    | some Bounds =>
      if !LoopUnrollTwice.isCandidate A S.F Lp then some (false, S)
      else
        match UnrollLoop A S L 5 Bounds with
        | none => none
        | some S1 => some (true, S1)

/-! ## The LLVM utilities used by the splitter -/

/-- `PHINode::replaceIncomingBlockWith(Old, New)` on every phi of block `succ`
(`BasicBlock::replacePhiUsesWith`). -/
def replacePhiUsesWith (F : Func) (succ Old New : BlockId) : Func :=
  F.mapBlock succ (fun l => l.map (fun I =>
    if I.op.isPhi then { I with incoming := I.incoming.map (fun b => if b = Old then New else b) }
    else I))

/-- `SplitBlock(Old, SplitPt, &DT, &LI)`: the instructions from `SplitPt` on (phis skipped)
move to a new block placed right after `Old`; `Old` gets a branch to the new block; the phis
of the new block's successors that named `Old` name the new block; the new block joins the
loop of `Old`. Returns the new block. -/
def SplitBlock (S : State) (Old : BlockId) (SplitPt : InstId) : Option (State × BlockId) :=
  match S.F.getBlock Old with
  | none => none
  | some OldBB =>
    if !OldBB.insts.any (fun I => decide (I.id = SplitPt)) then none else
    let pre0 := takeUntil (fun I : Inst => decide (I.id = SplitPt)) OldBB.insts
    let post0 := dropUntil (fun I : Inst => decide (I.id = SplitPt)) OldBB.insts
    let pre := pre0 ++ post0.takeWhile (fun I => I.op.isPhi)
    let post := post0.dropWhile (fun I => I.op.isPhi)
    let New := S.F.nextBlock
    let Br : Inst := ⟨S.F.nextInst, .br, 0, [.block New], []⟩
    let F1 : Func :=
      { S.F with
        blocks := insertAfterP (fun B : Block => decide (B.id = Old)) [⟨New, post⟩]
          (S.F.blocks.map (fun B => if B.id = Old then { B with insts := pre ++ [Br] } else B)),
        nextInst := S.F.nextInst + 1,
        nextBlock := S.F.nextBlock + 1 }
    let F2 := (F1.successors New).foldl (fun g d => replacePhiUsesWith g d Old New) F1
    match S.LI.getLoopFor Old with
    | none => some (⟨F2, S.LI⟩, New)
    | some l =>
      match S.LI.addBasicBlockToLoop l New with
      | none => none
      | some LI1 => some (⟨F2, LI1⟩, New)

/-- `CloneBasicBlock(BB, VMap, "", F)`: a new block at the end of the function holding a
clone of every instruction of `BB`, each recorded in `VMap`. -/
def CloneBasicBlock (F : Func) (BB : BlockId) (VMap : ValueToValueMapTy) :
    Option (Func × ValueToValueMapTy × BlockId) :=
  match F.getBlock BB with
  | none => none
  | some B =>
    let (F1, NewBB) := F.createBlock
    match foldOpt (fun (acc : Func × ValueToValueMapTy) (I : Inst) =>
        match acc.1.cloneInst I.id NewBB with
        | none => none
        | some (g, NewInst) => some (g, mapSet acc.2 (.inst I.id) (.inst NewInst)))
        (F1, VMap) B.insts with
    | none => none
    | some (F2, VMap1) => some (F2, VMap1, NewBB)

/-- `RemapInstruction(I, VMap, RF_NoModuleLevelChanges | RF_IgnoreMissingLocals)`: operands
and phi incoming blocks with an entry in `VMap` are replaced, the others are kept. -/
def RemapInstruction (F : Func) (VMap : ValueToValueMapTy) (user : InstId) : Option Func :=
  match F.getInst user with
  | none => none
  | some N =>
    match foldOpt (fun g i =>
        match g.getInst user with
        | none => none
        | some J =>
          match J.operands.get? i with
          | some v =>
            match mapFind VMap v with
            | some w => g.setOperand user i w
            | none => some g
          | none => some g) F (List.range N.operands.length) with
    | none => none
    | some F1 =>
      some (F1.mapInst user (fun J =>
        if J.op.isPhi then
          { J with incoming := J.incoming.map (fun b =>
              match mapFind VMap (.block b) with
              | some (.block b1) => b1
              | _ => b) }
        else J))

/-- `remapInstructionsInBlocks(Blocks, VMap)`. -/
def remapInstructionsInBlocks (F : Func) (Blocks : List BlockId) (VMap : ValueToValueMapTy) :
    Option Func :=
  foldOpt (fun g b =>
    match g.getBlock b with
    | none => none
    | some B => foldOpt (fun g1 I => RemapInstruction g1 VMap I.id) g B.insts) F Blocks

/-! ## `LoopSplit` -/

/-- `myCloneLoopWithPreheader` (src/MyLoopPass.cpp 184-232). Returns the state, the value
map, the cloned blocks and the new loop. -/
def myCloneLoopWithPreheader (S : State) (Before : BlockId) (OrigLoop : LoopId)
    (VMap : ValueToValueMapTy) :
    Option (State × ValueToValueMapTy × List BlockId × LoopId) :=
  match S.LI.getLoop OrigLoop with
  | none => none
  | some Orig =>
  -- assert(OrigLoop->getSubLoops().empty() && "Cannot split an outer loop");
  if !Orig.subLoops.isEmpty then none else
  let ParentLoop := Orig.parentLoop
  -- Loop *NewLoop = LI->AllocateLoop();
  let (LI0, NewLoop) := S.LI.AllocateLoop
  let LI1 := match ParentLoop with
    | some p => LI0.addChildLoop p NewLoop
    | none => LI0.addTopLevelLoop NewLoop
  -- BasicBlock *OrigPH = OrigLoop->getLoopPreheader(); assert(OrigPH && "No preheader");
  match Orig.getLoopPreheader S.F with
  | none => none
  | some OrigPH =>
  -- BasicBlock *NewPH = CloneBasicBlock(OrigPH, VMap, NameSuffix, F);
  match CloneBasicBlock S.F OrigPH VMap with
  | none => none
  | some (F1, VMap1, NewPH) =>
  -- VMap[OrigPH] = NewPH; Blocks.push_back(NewPH);
  let VMap2 := mapSet VMap1 (.block OrigPH) (.block NewPH)
  -- if (ParentLoop) ParentLoop->addBasicBlockToLoop(NewPH, *LI);
  match (match ParentLoop with
    | some p => LI1.addBasicBlockToLoop p NewPH
    | none => some LI1) with
  | none => none
  | some LI2 =>
  -- for (BasicBlock *BB : OrigLoop->getBlocks())
  match foldOpt (fun (acc : Func × LoopInfo × ValueToValueMapTy × List BlockId) (BB : BlockId) =>
      match CloneBasicBlock acc.1 BB acc.2.2.1 with
      | none => none
      | some (g, vm, NewBB) =>
        match acc.2.1.addBasicBlockToLoop NewLoop NewBB with
        | none => none
        | some li =>
          let li1 := if some BB = Orig.getHeader then li.moveToHeader NewLoop NewBB else li
          some (g, li1, mapSet vm (.block BB) (.block NewBB), acc.2.2.2 ++ [NewBB]))
      (F1, LI2, VMap2, [NewPH]) Orig.blocks with
  | none => none
  | some (F2, LI3, VMap3, Blocks) =>
  -- Move them physically from the end of the block list.
  match F2.moveBlockBefore NewPH Before with
  | none => none
  | some F3 =>
  match (LI3.getLoop NewLoop).bind (fun N => N.getHeader) with
  | none => none
  | some NewHeader =>
    if !F3.blocks.any (fun B => decide (B.id = NewHeader)) then none else
    let moved := dropUntil (fun B : Block => decide (B.id = NewHeader)) F3.blocks
    let kept := takeUntil (fun B : Block => decide (B.id = NewHeader)) F3.blocks
    let F4 := { F3 with blocks := insertBeforeP (fun B : Block => decide (B.id = Before)) moved kept }
    some (⟨F4, LI3⟩, VMap3, Blocks, NewLoop)

/-- `LoopSplit::cloneLoop` (src/MyLoopPass.cpp 152-182). -/
def LoopSplit.cloneLoop (S : State) (L : LoopId) (InsertBefore Pred : BlockId) :
    Option (State × LoopId) :=
  match myCloneLoopWithPreheader S InsertBefore L [] with
  | none => none
  | some (S1, VMap, ClonedLoopBlocks, NewLoop) =>
  -- VMap[L.getExitBlock()] = &InsertBefore;
  match (S1.LI.getLoop L).bind (fun Lp => Lp.getExitBlock S1.F) with
  | none => none
  | some Exit =>
  let VMap1 := mapSet VMap (.block Exit) (.block InsertBefore)
  match remapInstructionsInBlocks S1.F ClonedLoopBlocks VMap1 with
  | none => none
  | some F1 =>
  -- Pred.getTerminator()->replaceUsesOfWith(&InsertBefore, NewLoop->getLoopPreheader());
  match (F1.getBlock Pred).bind (fun B => B.getTerminator) with
  | none => none
  | some PredTerm =>
  match (S1.LI.getLoop NewLoop).bind (fun N => N.getLoopPreheader F1) with
  | none => none
  | some NewPH =>
  match F1.replaceUsesOfWith PredTerm.id (.block InsertBefore) (.block NewPH) with
  | none => none
  | some F2 => some (⟨F2, S1.LI⟩, NewLoop)

/-- `LoopSplit::getLatchCmpInst` (src/MyLoopPass.cpp 234-241). -/
def LoopSplit.getLatchCmpInst (F : Func) (L : Loop) : Option InstId :=
  match (L.getLoopLatch F).bind F.getBlock with
  | none => none
  | some Latch =>
    match Latch.getTerminator with
    | none => none
    | some BI =>
      match BI.op, BI.operands with
      | .br, [.inst c, _, _] =>
        match F.getInst c with
        | some C => if C.op.isICmp then some c else none
        | none => none
      | _, _ => none

/-- `PHINode::setIncomingValueForBlock(BB, V)`: every incoming value whose block is `BB`
is set to `V` (none is, when `BB` is null). -/
def setIncomingValueForBlock (F : Func) (phi : InstId) (BB : Option BlockId) (V : Value) :
    Option Func :=
  match F.getInst phi with
  | none => none
  | some P =>
    foldOpt (fun g i =>
      if (P.incoming.get? i).isSome && decide (P.incoming.get? i = BB) then
        g.setOperand phi i V
      else some g)
      F (List.range P.operands.length)

/-- `LoopSplit::splitLoopInHalf` (src/MyLoopPass.cpp 86-130). -/
def LoopSplit.splitLoopInHalf (A : LoopAnalysis) (S : State) (L : LoopId) :
    Option (Bool × State) :=
  match S.LI.getLoop L with
  | none => none
  | some Lp =>
  -- the three asserts
  if !Lp.isLoopSimplifyForm S.F then none else
  if !A.isSafeToClone then none else
  if !Lp.subLoops.isEmpty then none else
  -- Instruction *Split = computeSplitPoint(L, L.getLoopPreheader()->getTerminator());
  match ((Lp.getLoopPreheader S.F).bind S.F.getBlock).bind (fun B => B.getTerminator) with
  | none => none
  | some PHTerm =>
  match LoopSplit.computeSplitPoint A S.F PHTerm.id with
  | none => none
  | some (F1, Split) =>
  -- Split the loop preheader to create an insertion point for the cloned loop.
  match Lp.getLoopPreheader F1 with
  | none => none
  | some Preheader =>
  let Pred := Preheader
  match (F1.getBlock Preheader).bind (fun B => B.getTerminator) with
  | none => none
  | some PHTerm1 =>
  match SplitBlock ⟨F1, S.LI⟩ Preheader PHTerm1.id with
  | none => none
  | some (S2, InsertBefore) =>
  -- Clone the original loop, and insert the clone before the original loop.
  match LoopSplit.cloneLoop S2 L InsertBefore Pred with
  | none => none
  | some (S3, ClonedLoop) =>
  -- Modify the upper bound of the cloned loop.
  match (S3.LI.getLoop ClonedLoop).bind (fun C => LoopSplit.getLatchCmpInst S3.F C) with
  | none => none
  | some LatchCmpInst =>
  match S3.F.setOperand LatchCmpInst 1 (.inst Split) with
  | none => none
  | some F4 =>
  -- Modify the lower bound of the original loop.
  match A.inductionVariable with
  | none => none
  | some IndVar =>
  -- IndVar->setIncomingValueForBlock(L.getLoopPreheader(), Split);
  match S3.LI.getLoop L with
  | none => none
  | some L1 =>
  match setIncomingValueForBlock F4 IndVar (L1.getLoopPreheader F4) (.inst Split) with
  | none => none
  | some F5 => some (true, ⟨F5, S3.LI⟩)

/-- `LoopSplit::run` (src/MyLoopPass.cpp 38-55). -/
def LoopSplit.run (A : LoopAnalysis) (S : State) (L : LoopId) : Option (Bool × State) :=
  match S.LI.getLoop L with
  | none => none
  | some Lp =>
    if !LoopSplit.isCandidate A S.F Lp then some (false, S)
    else LoopSplit.splitLoopInHalf A S L

/-! ## Execution of the IR

A small-step reading of the IR fragment, used to compare what a function does before
and after a transformation.  Values are bit patterns tagged with their width; a binary
operator or comparison whose operands do not have the expected width has no value
(the IR is ill-typed), and neither has a division by zero. -/

/-- SSA environment: instruction identity to (width, value), latest binding first. -/
abbrev Env := List (InstId × (Nat × Nat))

structure ExecState where
  env : Env
  trace : List Nat
  deriving DecidableEq, Repr

inductive Outcome where
  | returned (trace : List Nat)
  | stuck (trace : List Nat)
  | outOfFuel (trace : List Nat)
  deriving DecidableEq, Repr

/-- Two's complement reading of a `w`-bit pattern. -/
def toSigned (w : Nat) (a : Nat) : Int :=
  if 2 * a < 2 ^ w then (a : Int) else (a : Int) - (2 ^ w : Nat)

def evalValue (args : List Nat) (env : Env) : Value → Option (Nat × Nat)
  | .inst i => mapFind env i
  | .const b v => some (b, v % 2 ^ b)
  | .arg b n => (args.get? n).map (fun v => (b, v % 2 ^ b))
  | .block _ => none

def evalBinary (op : Opcode) (w a b : Nat) : Option Nat :=
  match op with
  | .add => some ((a + b) % 2 ^ w)
  | .sub => some ((a + 2 ^ w - b) % 2 ^ w)
  | .mul => some ((a * b) % 2 ^ w)
  | .udiv => if b = 0 then none else some (a / b)
  | _ => none

def evalPred (p : Pred) (w a b : Nat) : Bool :=
  match p with
  | .eq => decide (a = b)
  | .ne => !decide (a = b)
  | .ult => decide (a < b)
  | .ule => decide (a ≤ b)
  | .ugt => decide (b < a)
  | .uge => decide (b ≤ a)
  | .slt => decide (toSigned w a < toSigned w b)
  | .sle => decide (toSigned w a ≤ toSigned w b)
  | .sgt => decide (toSigned w b < toSigned w a)
  | .sge => decide (toSigned w b ≤ toSigned w a)

/-- Evaluate every operand, left to right. -/
def evalOperands (args : List Nat) (env : Env) : List Value → Option (List Nat)
  | [] => some []
  | v :: vs =>
    match evalValue args env v, evalOperands args env vs with
    | some (_, x), some xs => some (x :: xs)
    | _, _ => none

/-- Execute one instruction that is neither a phi nor a terminator. -/
def execInst (args : List Nat) (σ : ExecState) (I : Inst) : Option ExecState :=
  match I.op with
  | .icmp p =>
    match I.operands with
    | [x, y] =>
      match evalValue args σ.env x, evalValue args σ.env y with
      | some (wx, a), some (wy, b) =>
        if wx = wy then
          some { σ with env := (I.id, (1, if evalPred p wx a b then 1 else 0)) :: σ.env }
        else none
      | _, _ => none
    | _ => none
  | .call =>
    match evalOperands args σ.env I.operands with
    | some vs => some { σ with trace := σ.trace ++ vs }
    | none => none
  | .phi => none
  | .br => none
  | .ret => none
  | op =>
    match I.operands with
    | [x, y] =>
      match evalValue args σ.env x, evalValue args σ.env y with
      | some (wx, a), some (wy, b) =>
        if wx = I.ty ∧ wy = I.ty then
          match evalBinary op I.ty a b with
          | some r => some { σ with env := (I.id, (I.ty, r)) :: σ.env }
          | none => none
        else none
      | _, _ => none
    | _ => none

/-- The value a phi takes when its block is entered from `prev`, read in the
environment of the predecessor. -/
def evalPhi (args : List Nat) (env : Env) (prev : BlockId) (I : Inst) : Option (Nat × Nat) :=
  match (I.incoming.zip I.operands).find? (fun e => decide (e.1 = prev)) with
  | some (_, v) => evalValue args env v
  | none => none

/-- All phis of a block take their values at once. -/
def execPhis (args : List Nat) (env0 : Env) (prev : BlockId) : List Inst → Option Env
  | [] => some []
  | I :: rest =>
    match evalPhi args env0 prev I, execPhis args env0 prev rest with
    | some v, some e => some ((I.id, v) :: e)
    | _, _ => none

/-- Where control goes after a block. -/
inductive Next where
  | goto (b : BlockId)
  | ret
  deriving DecidableEq, Repr

/-- Execute the non-phi part of a block: the terminator must be the last instruction. -/
def execBody (args : List Nat) : ExecState → List Inst → Option (ExecState × Next)
  | _, [] => none
  | σ, I :: rest =>
    if I.op.isTerminator then
      match rest with
      | _ :: _ => none
      | [] =>
        match I.op, I.operands with
        | .ret, _ => some (σ, .ret)
        | .br, [.block d] => some (σ, .goto d)
        | .br, [c, .block t, .block e] =>
          match evalValue args σ.env c with
          | some (1, v) => some (σ, .goto (if v = 1 then t else e))
          | _ => none
        | _, _ => none
    else
      match execInst args σ I with
      | some σ1 => execBody args σ1 rest
      | none => none

def execBlock (args : List Nat) (prev : Option BlockId) (B : Block) (σ : ExecState) :
    Option (ExecState × Next) :=
  let phis := B.insts.takeWhile (fun I => I.op.isPhi)
  let body := B.insts.dropWhile (fun I => I.op.isPhi)
  match phis, prev with
  | [], _ => execBody args σ body
  | _ :: _, none => none
  | _ :: _, some p =>
    match execPhis args σ.env p phis with
    | some e => execBody args { σ with env := e ++ σ.env } body
    | none => none

/-- Run from block `b`, entered from `prev`, for at most `fuel` blocks. -/
def runFrom (f : Func) (args : List Nat) : Nat → BlockId → Option BlockId → ExecState → Outcome
  | 0, _, _, σ => .outOfFuel σ.trace
  | fuel + 1, b, prev, σ =>
    match f.getBlock b with
    | none => .stuck σ.trace
    | some B =>
      match execBlock args prev B σ with
      | none => .stuck σ.trace
      | some (σ1, .ret) => .returned σ1.trace
      | some (σ1, .goto d) => runFrom f args fuel d (some b) σ1

/-- Run a function from its entry block. -/
def Func.run (f : Func) (args : List Nat) (fuel : Nat) : Outcome :=
  match f.blocks with
  | [] => .stuck []
  | B :: _ => runFrom f args fuel B.id none ⟨[], []⟩

/-- Execute a straight-line run of instructions. -/
def execInsts (args : List Nat) : ExecState → List Inst → Option ExecState :=
  foldOpt (execInst args)

/-- The value instruction `d` has after the instructions `l` ran from state `σ`. -/
def valueAfter (args : List Nat) (σ : ExecState) (l : List Inst) (d : InstId) :
    Option (Nat × Nat) :=
  (execInsts args σ l).bind (fun σ1 => mapFind σ1.env d)

/-- Identities are unique and below the allocator: what holds of pointers to live
blocks and instructions. -/
def Func.WellFormed (f : Func) : Prop :=
  (f.blocks.map (fun B => B.id)).Nodup ∧ (f.allInsts.map (fun I => I.id)).Nodup ∧
    ∀ I ∈ f.allInsts, I.id < f.nextInst

instance (f : Func) : Decidable f.WellFormed := by
  unfold Func.WellFormed
  infer_instance

/-! ## Building input functions -/

/-- The use edges of a function whose instructions were created in layout order:
every operand slot registered with `addUse`, first instruction first. -/
def usesInLayoutOrder (blocks : List Block) : List Use :=
  (instsOf blocks).foldl
    (fun us I => (((List.range I.operands.length).foldl
      (fun (g : Func) n => match I.operands.get? n with
        | some v => g.addUse v I.id n
        | none => g) ⟨[], us, 0, 0⟩)).uses) []

/-- A function from its blocks, use-lists as left by creation in layout order. -/
def mkFunc (blocks : List Block) (nextInst nextBlock : Nat) : Func :=
  ⟨blocks, usesInLayoutOrder blocks, nextInst, nextBlock⟩

/-- The two-block counted loop
```
0 entry:  br pre
1 pre:    br header
2 header: %10 = phi [initial, pre], [%12, latch];  call(%10);  br latch
3 latch:  %12 = add %10, step;  %13 = icmp ult %12, final;  br %13, header, exit
4 exit:   ret
```
over `bits`-bit integers; the call makes the value of the induction variable observable. -/
def loopOf (bits : Nat) (initial final step : Value) : Func :=
  mkFunc
    [ ⟨0, [⟨1, .br, 0, [.block 1], []⟩]⟩,
      ⟨1, [⟨2, .br, 0, [.block 2], []⟩]⟩,
      ⟨2, [⟨10, .phi, bits, [initial, .inst 12], [1, 3]⟩,
           ⟨11, .call, 0, [.inst 10], []⟩,
           ⟨3, .br, 0, [.block 3], []⟩]⟩,
      ⟨3, [⟨12, .add, bits, [.inst 10, step], []⟩,
           ⟨13, .icmp .ult, 1, [.inst 12, final], []⟩,
           ⟨4, .br, 0, [.inst 13, .block 2, .block 4], []⟩]⟩,
      ⟨4, [⟨5, .ret, 0, [], []⟩]⟩ ]
    20 5

/-- `loopOf` with constant bounds and step. -/
def countedLoop (bits initial final step : Nat) : Func :=
  loopOf bits (.const bits initial) (.const bits final) (.const bits step)

/-- The loop nest of `countedLoop`: one top-level loop, number 0, of header 2 and latch 3. -/
def countedLoopInfo : LoopInfo := ⟨[⟨0, [2, 3], none, []⟩], [0], [(2, 0), (3, 0)], 1⟩

/-- The oracle answers for the loop of `loopOf`: safe to clone, induction variable `%10`,
step instruction `%12`. -/
def loopAnalysisOf (initial final step : Value) : LoopAnalysis :=
  ⟨true, some 10, some ⟨initial, 12, some step, final⟩⟩

/-- The oracle answers for the loop of `countedLoop`. -/
def countedLoopAnalysis (bits initial final step : Nat) : LoopAnalysis :=
  loopAnalysisOf (.const bits initial) (.const bits final) (.const bits step)

/-- The state the pass is entered with on `countedLoop`. -/
def countedLoopState (bits initial final step : Nat) : State :=
  ⟨countedLoop bits initial final step, countedLoopInfo⟩

/-- A rotated loop made of one block, header and latch at once:
```
0 entry: br pre
1 pre:   br body
2 body:  %10 = phi i32 [0, pre], [%12, body];  call(%10);  %12 = add %10, 1;
         %13 = icmp ult %12, 10;  br %13, body, exit
3 exit:  ret
``` -/
def singleBlockLoop : Func :=
  mkFunc
    [ ⟨0, [⟨1, .br, 0, [.block 1], []⟩]⟩,
      ⟨1, [⟨2, .br, 0, [.block 2], []⟩]⟩,
      ⟨2, [⟨10, .phi, 32, [.const 32 0, .inst 12], [1, 2]⟩,
           ⟨11, .call, 0, [.inst 10], []⟩,
           ⟨12, .add, 32, [.inst 10, .const 32 1], []⟩,
           ⟨13, .icmp .ult, 1, [.inst 12, .const 32 10], []⟩,
           ⟨4, .br, 0, [.inst 13, .block 2, .block 3], []⟩]⟩,
      ⟨3, [⟨5, .ret, 0, [], []⟩]⟩ ]
    20 4

def singleBlockLoopInfo : LoopInfo := ⟨[⟨0, [2], none, []⟩], [0], [(2, 0)], 1⟩

def singleBlockState : State := ⟨singleBlockLoop, singleBlockLoopInfo⟩

/-- A two-block loop whose header holds only the phi and its branch; the body is in the latch:
```
2 header: %10 = phi i32 [0, pre], [%12, latch];  br latch
3 latch:  call(%10);  %12 = add %10, 1;  %13 = icmp ult %12, 10;  br %13, header, exit
``` -/
def emptyHeaderLoop : Func :=
  mkFunc
    [ ⟨0, [⟨1, .br, 0, [.block 1], []⟩]⟩,
      ⟨1, [⟨2, .br, 0, [.block 2], []⟩]⟩,
      ⟨2, [⟨10, .phi, 32, [.const 32 0, .inst 12], [1, 3]⟩,
           ⟨3, .br, 0, [.block 3], []⟩]⟩,
      ⟨3, [⟨11, .call, 0, [.inst 10], []⟩,
           ⟨12, .add, 32, [.inst 10, .const 32 1], []⟩,
           ⟨13, .icmp .ult, 1, [.inst 12, .const 32 10], []⟩,
           ⟨4, .br, 0, [.inst 13, .block 2, .block 4], []⟩]⟩,
      ⟨4, [⟨5, .ret, 0, [], []⟩]⟩ ]
    20 5

def emptyHeaderState : State := ⟨emptyHeaderLoop, countedLoopInfo⟩

/-- A two-block loop with an observable call in the header and another in the latch:
```
2 header: %10 = phi i32 [0, pre], [%12, latch];  call(%10);  br latch
3 latch:  %14 = add %10, 100;  call(%14);  %12 = add %10, 1;  %13 = icmp ult %12, 10;
          br %13, header, exit
``` -/
def latchEffectLoop : Func :=
  mkFunc
    [ ⟨0, [⟨1, .br, 0, [.block 1], []⟩]⟩,
      ⟨1, [⟨2, .br, 0, [.block 2], []⟩]⟩,
      ⟨2, [⟨10, .phi, 32, [.const 32 0, .inst 12], [1, 3]⟩,
           ⟨11, .call, 0, [.inst 10], []⟩,
           ⟨3, .br, 0, [.block 3], []⟩]⟩,
      ⟨3, [⟨14, .add, 32, [.inst 10, .const 32 100], []⟩,
           ⟨15, .call, 0, [.inst 14], []⟩,
           ⟨12, .add, 32, [.inst 10, .const 32 1], []⟩,
           ⟨13, .icmp .ult, 1, [.inst 12, .const 32 10], []⟩,
           ⟨4, .br, 0, [.inst 13, .block 2, .block 4], []⟩]⟩,
      ⟨4, [⟨5, .ret, 0, [], []⟩]⟩ ]
    20 5

def latchEffectState : State := ⟨latchEffectLoop, countedLoopInfo⟩

/-- A two-block loop whose only call is in the header and reads a header phi that is
advanced in the latch:
```
2 header: %10 = phi i32 [0, pre], [%12, latch];  %14 = phi i32 [0, pre], [%16, latch];
          call(%14);  br latch
3 latch:  %16 = add %14, 3;  %12 = add %10, 1;  %13 = icmp ult %12, 10;
          br %13, header, exit
``` -/
def latchPhiLoop : Func :=
  mkFunc
    [ ⟨0, [⟨1, .br, 0, [.block 1], []⟩]⟩,
      ⟨1, [⟨2, .br, 0, [.block 2], []⟩]⟩,
      ⟨2, [⟨10, .phi, 32, [.const 32 0, .inst 12], [1, 3]⟩,
           ⟨14, .phi, 32, [.const 32 0, .inst 16], [1, 3]⟩,
           ⟨11, .call, 0, [.inst 14], []⟩,
           ⟨3, .br, 0, [.block 3], []⟩]⟩,
      ⟨3, [⟨16, .add, 32, [.inst 14, .const 32 3], []⟩,
           ⟨12, .add, 32, [.inst 10, .const 32 1], []⟩,
           ⟨13, .icmp .ult, 1, [.inst 12, .const 32 10], []⟩,
           ⟨4, .br, 0, [.inst 13, .block 2, .block 4], []⟩]⟩,
      ⟨4, [⟨5, .ret, 0, [], []⟩]⟩ ]
    20 5

def latchPhiState : State := ⟨latchPhiLoop, countedLoopInfo⟩

/-- A two-block loop in which the header instruction `%16` is the back-edge value of two
header phis, `%14` and `%15`:
```
2 header: %10 = phi i32 [0, pre], [%12, latch]
          %14 = phi i32 [0, pre], [%16, latch]
          %15 = phi i32 [1, pre], [%16, latch]
          %16 = add %14, %15;  call(%16);  br latch
3 latch:  %12 = add %10, 1;  %13 = icmp ult %12, 10;  br %13, header, exit
```
The use-list of `%16` holds the call and the two phis; `phi15First` chooses which of the
two phis `users()` meets first. -/
def sharedPhiLoop (phi15First : Bool) : Func :=
  { blocks :=
      [ ⟨0, [⟨1, .br, 0, [.block 1], []⟩]⟩,
        ⟨1, [⟨2, .br, 0, [.block 2], []⟩]⟩,
        ⟨2, [⟨10, .phi, 32, [.const 32 0, .inst 12], [1, 3]⟩,
             ⟨14, .phi, 32, [.const 32 0, .inst 16], [1, 3]⟩,
             ⟨15, .phi, 32, [.const 32 1, .inst 16], [1, 3]⟩,
             ⟨16, .add, 32, [.inst 14, .inst 15], []⟩,
             ⟨17, .call, 0, [.inst 16], []⟩,
             ⟨3, .br, 0, [.block 3], []⟩]⟩,
        ⟨3, [⟨12, .add, 32, [.inst 10, .const 32 1], []⟩,
             ⟨13, .icmp .ult, 1, [.inst 12, .const 32 10], []⟩,
             ⟨4, .br, 0, [.inst 13, .block 2, .block 4], []⟩]⟩,
        ⟨4, [⟨5, .ret, 0, [], []⟩]⟩ ],
    uses :=
      [⟨13, 4, 0⟩, ⟨12, 13, 0⟩, ⟨10, 12, 0⟩, ⟨16, 17, 0⟩, ⟨15, 16, 1⟩, ⟨14, 16, 0⟩] ++
      (if phi15First then [⟨16, 15, 1⟩, ⟨16, 14, 1⟩] else [⟨16, 14, 1⟩, ⟨16, 15, 1⟩]) ++
      [⟨12, 10, 1⟩],
    nextInst := 20,
    nextBlock := 5 }

def sharedPhiState (phi15First : Bool) : State := ⟨sharedPhiLoop phi15First, countedLoopInfo⟩

/-- A two-block counted loop from 0 to 10 with a second header phi, whose latch comparison
holds the upper bound in operand 0 (`boundFirst`) or in operand 1:
```
2 header: %10 = phi i32 [0, pre], [%12, latch];  %14 = phi i32 [100, pre], [%15, latch];
          call(%10);  %15 = add %14, 1;  br latch
3 latch:  %12 = add %10, 1
          %13 = icmp ugt 10, %12      (boundFirst)    or    %13 = icmp ult %12, 10
          br %13, header, exit
``` -/
def boundLoop (boundFirst : Bool) : Func :=
  mkFunc
    [ ⟨0, [⟨1, .br, 0, [.block 1], []⟩]⟩,
      ⟨1, [⟨2, .br, 0, [.block 2], []⟩]⟩,
      ⟨2, [⟨10, .phi, 32, [.const 32 0, .inst 12], [1, 3]⟩,
           ⟨14, .phi, 32, [.const 32 100, .inst 15], [1, 3]⟩,
           ⟨11, .call, 0, [.inst 10], []⟩,
           ⟨15, .add, 32, [.inst 14, .const 32 1], []⟩,
           ⟨3, .br, 0, [.block 3], []⟩]⟩,
      ⟨3, [⟨12, .add, 32, [.inst 10, .const 32 1], []⟩,
           (if boundFirst then ⟨13, .icmp .ugt, 1, [.const 32 10, .inst 12], []⟩
            else ⟨13, .icmp .ult, 1, [.inst 12, .const 32 10], []⟩),
           ⟨4, .br, 0, [.inst 13, .block 2, .block 4], []⟩]⟩,
      ⟨4, [⟨5, .ret, 0, [], []⟩]⟩ ]
    20 5

def boundLoopState (boundFirst : Bool) : State := ⟨boundLoop boundFirst, countedLoopInfo⟩

/-! ## Theorems -/

/-! ### Candidacy -/

theorem getExitingBlock_isSome_iff (F : Func) (L : Loop) :
    (L.getExitingBlock F).isSome = true ↔ (L.getExitingBlocks F).length = 1 := by
  unfold Loop.getExitingBlock
  cases h : L.getExitingBlocks F with
  | nil => simp
  | cons a t => cases t <;> simp

theorem getExitBlock_isSome_iff (F : Func) (L : Loop) :
    (L.getExitBlock F).isSome = true ↔ (L.getExitBlocks F).length = 1 := by
  unfold Loop.getExitBlock
  cases h : L.getExitBlocks F with
  | nil => simp
  | cons a t => cases t <;> simp

/-- C3: `LoopSplit::isCandidate` answers true exactly when the loop is in loop-simplify
form, is safe to clone, has exactly one exiting block, has exactly one exit block, has no
sub-loops and the bounds oracle returns bounds. The embedding is a function of the function,
the loop and the oracle answers into `Bool`: evaluating it produces no new state. -/
theorem LoopSplit_isCandidate_iff (A : LoopAnalysis) (F : Func) (L : Loop) :
    LoopSplit.isCandidate A F L = true ↔
      (L.isLoopSimplifyForm F = true ∧ A.isSafeToClone = true ∧
        (L.getExitingBlocks F).length = 1 ∧ (L.getExitBlocks F).length = 1 ∧
        L.subLoops = [] ∧ A.bounds.isSome = true) := by
  rw [← getExitingBlock_isSome_iff, ← getExitBlock_isSome_iff]
  unfold LoopSplit.isCandidate
  cases L.isLoopSimplifyForm F <;> cases A.isSafeToClone <;>
    cases (L.getExitingBlock F).isSome <;> cases (L.getExitBlock F).isSome <;>
    cases h : L.subLoops <;> cases A.bounds.isSome <;> simp

/-- What `LoopUnrollTwice::isCandidate` decides: the five shape conditions and at most
two blocks. -/
theorem LoopUnrollTwice_isCandidate_iff (A : LoopAnalysis) (F : Func) (L : Loop) :
    LoopUnrollTwice.isCandidate A F L = true ↔
      (L.isLoopSimplifyForm F = true ∧ A.isSafeToClone = true ∧
        (L.getExitingBlocks F).length = 1 ∧ (L.getExitBlocks F).length = 1 ∧
        L.subLoops = [] ∧ L.getNumBlocks ≤ 2) := by
  rw [← getExitingBlock_isSome_iff, ← getExitBlock_isSome_iff]
  unfold LoopUnrollTwice.isCandidate
  cases L.isLoopSimplifyForm F <;> cases A.isSafeToClone <;>
    cases (L.getExitingBlock F).isSome <;> cases (L.getExitBlock F).isSome <;>
    cases h : L.subLoops <;> simp

/-- C4 (code defect): the rotated single-block loop `singleBlockLoop`, whose header is its
own latch, has one block and is accepted by `LoopUnrollTwice::isCandidate`. -/
theorem LoopUnrollTwice_isCandidate_accepts_single_block :
    (⟨0, [2], none, []⟩ : Loop).getNumBlocks = 1 ∧
    singleBlockLoopInfo.getLoop 0 = some ⟨0, [2], none, []⟩ ∧
    LoopUnrollTwice.isCandidate (countedLoopAnalysis 32 0 10 1) singleBlockLoop
      ⟨0, [2], none, []⟩ = true := by
  decide!

/-! ### Rejected loops are left alone -/

/-- C5: a loop rejected by `LoopSplit::isCandidate` makes `LoopSplit::run` return false with
the state (function and loop nest) unchanged; a loop rejected by
`LoopUnrollTwice::isCandidate`, or without bounds, makes `LoopUnrollTwice::run` return false
with the state unchanged; and either `run` returns true only for a loop that its
`isCandidate` accepted. -/
theorem run_rejected_unchanged (A : LoopAnalysis) (S : State) (L : LoopId) (Lp : Loop)
    (hL : S.LI.getLoop L = some Lp) :
    (LoopSplit.isCandidate A S.F Lp = false → LoopSplit.run A S L = some (false, S)) ∧
    ((LoopUnrollTwice.isCandidate A S.F Lp = false ∨ A.bounds = none) →
      LoopUnrollTwice.run A S L = some (false, S)) ∧
    (∀ S1, LoopSplit.run A S L = some (true, S1) → LoopSplit.isCandidate A S.F Lp = true) ∧
    (∀ S1, LoopUnrollTwice.run A S L = some (true, S1) →
      LoopUnrollTwice.isCandidate A S.F Lp = true ∧ A.bounds.isSome = true) := by
  refine ⟨?_, ?_, ?_, ?_⟩
  · intro h
    simp [LoopSplit.run, hL, h]
  · intro h
    unfold LoopUnrollTwice.run
    rw [hL]
    cases hb : A.bounds with
    | none => rfl
    | some B =>
      rcases h with h | h
      · simp [h]
      · rw [hb] at h; cases h
  · intro S1 h
    unfold LoopSplit.run at h
    rw [hL] at h
    cases hc : LoopSplit.isCandidate A S.F Lp with
    | true => rfl
    | false => simp [hc] at h
  · intro S1 h
    unfold LoopUnrollTwice.run at h
    rw [hL] at h
    cases hb : A.bounds with
    | none => simp [hb] at h
    | some B =>
      cases hc : LoopUnrollTwice.isCandidate A S.F Lp with
      | true => simp
      | false => simp [hb, hc] at h

/-- Witness for C5: with the safe-to-clone answer false the loop of `countedLoop` is rejected
by both gates and both `run`s hand the state back. -/
theorem run_rejected_unchanged_witness :
    LoopSplit.run ⟨false, some 10, none⟩ (countedLoopState 32 0 10 1) 0 =
      some (false, countedLoopState 32 0 10 1) ∧
    LoopUnrollTwice.run ⟨false, some 10, none⟩ (countedLoopState 32 0 10 1) 0 =
      some (false, countedLoopState 32 0 10 1) :=
  ⟨(run_rejected_unchanged ⟨false, some 10, none⟩ (countedLoopState 32 0 10 1) 0
      ⟨0, [2, 3], none, []⟩ (by decide!)).1 (by decide!),
   (run_rejected_unchanged ⟨false, some 10, none⟩ (countedLoopState 32 0 10 1) 0
      ⟨0, [2, 3], none, []⟩ (by decide!)).2.1 (Or.inr rfl)⟩

/-- Both `run`s do return true on an accepted loop: the loop of `countedLoop` from 0 to 10. -/
theorem run_accepted_returns_true :
    (LoopSplit.run (countedLoopAnalysis 32 0 10 1) (countedLoopState 32 0 10 1) 0).map
      (fun r => r.1) = some true ∧
    (LoopUnrollTwice.run (countedLoopAnalysis 32 0 10 1) (countedLoopState 32 0 10 1) 0).map
      (fun r => r.1) = some true := by
  decide!


/-! ### The split point -/

theorem instsOf_append (l1 l2 : List Block) : instsOf (l1 ++ l2) = instsOf l1 ++ instsOf l2 := by
  induction l1 with
  | nil => rfl
  | cons B t ih =>
    show B.insts ++ instsOf (t ++ l2) = (B.insts ++ instsOf t) ++ instsOf l2
    rw [ih, List.append_assoc]

theorem instsOf_cons (B : Block) (l : List Block) : instsOf (B :: l) = B.insts ++ instsOf l := rfl

theorem mem_instsOf {bs : List Block} {B : Block} {I : Inst} (hB : B ∈ bs) (hI : I ∈ B.insts) :
    I ∈ instsOf bs := by
  induction bs with
  | nil => cases hB
  | cons X t ih =>
    rw [instsOf_cons]
    rcases List.mem_cons.1 hB with h | h
    · subst h; exact List.mem_append_left _ hI
    · exact List.mem_append_right _ (ih h)

theorem insertBeforeP_append {α : Type} (p : α → Bool) (xs pre : List α) (y : α)
    (post : List α) (hpre : ∀ z ∈ pre, p z = false) (hy : p y = true) :
    insertBeforeP p xs (pre ++ y :: post) = pre ++ (xs ++ y :: post) := by
  induction pre with
  | nil => simp [insertBeforeP, hy]
  | cons z t ih =>
    have hz : p z = false := hpre z (List.mem_cons_self _ _)
    have ht : ∀ u ∈ t, p u = false := fun u hu => hpre u (List.mem_cons_of_mem _ hu)
    simp [insertBeforeP, hz, ih ht]

theorem find?_append_skip {α : Type} (p : α → Bool) (l1 l2 : List α)
    (h : ∀ z ∈ l1, p z = false) : (l1 ++ l2).find? p = l2.find? p := by
  induction l1 with
  | nil => rfl
  | cons z t ih =>
    have hz : p z = false := h z (List.mem_cons_self _ _)
    have ht : ∀ u ∈ t, p u = false := fun u hu => h u (List.mem_cons_of_mem _ hu)
    simp [List.find?, hz, ih ht]

theorem map_block_decomp (Bs1 Bs2 : List Block) (X : Block) (g : List Inst → List Inst)
    (h1 : ∀ Y ∈ Bs1, Y.id ≠ X.id) (h2 : ∀ Y ∈ Bs2, Y.id ≠ X.id) :
    (Bs1 ++ X :: Bs2).map (fun B => if B.id = X.id then { B with insts := g B.insts } else B) =
      Bs1 ++ { X with insts := g X.insts } :: Bs2 := by
  have e1 : Bs1.map (fun B => if B.id = X.id then { B with insts := g B.insts } else B) = Bs1 := by
    conv_rhs => rw [← List.map_id Bs1]
    apply List.map_congr_left
    intro Y hY
    simp [h1 Y hY]
  have e2 : Bs2.map (fun B => if B.id = X.id then { B with insts := g B.insts } else B) = Bs2 := by
    conv_rhs => rw [← List.map_id Bs2]
    apply List.map_congr_left
    intro Y hY
    simp [h2 Y hY]
  rw [List.map_append, List.map_cons, e1, e2]
  simp

theorem addUse_blocks (f : Func) (v : Value) (u n : Nat) :
    (f.addUse v u n).blocks = f.blocks ∧ (f.addUse v u n).nextInst = f.nextInst := by
  cases v <;> exact ⟨rfl, rfl⟩

theorem addUses_blocks (f : Func) (N : Inst) :
    (f.addUses N).blocks = f.blocks ∧ (f.addUses N).nextInst = f.nextInst := by
  unfold Func.addUses
  generalize List.range N.operands.length = l
  induction l generalizing f with
  | nil => exact ⟨rfl, rfl⟩
  | cons n t ih =>
    rw [List.foldl_cons]
    cases h : N.operands.get? n with
    | none => exact ih f
    | some v =>
      have := ih (f.addUse v N.id n)
      rw [(addUse_blocks f v N.id n).1, (addUse_blocks f v N.id n).2] at this
      exact this

/-- In a function whose block list is `Bs1 ++ ⟨blk, pre ++ ip :: post⟩ :: Bs2`, with `blk`
and `ip` met there first, `BinaryOperator::Create(.., InsertBefore = ip)` links the new
instruction right in front of `ip` and changes nothing else in the block list. -/
theorem createBinaryOperator_blocks (F : Func) (op : Opcode) (S1 S2 : Value) (t : Nat)
    (Bs1 Bs2 : List Block) (blk : BlockId) (pre post : List Inst) (ip : Inst)
    (hF : F.blocks = Bs1 ++ ⟨blk, pre ++ ip :: post⟩ :: Bs2)
    (hB1 : ∀ Y ∈ Bs1, Y.id ≠ blk) (hB2 : ∀ Y ∈ Bs2, Y.id ≠ blk)
    (hI : ∀ I ∈ instsOf Bs1 ++ pre, I.id ≠ ip.id)
    (hty : F.typeOf S1 = some t) :
    ∃ F1, F.createBinaryOperator op S1 S2 ip.id = some (F1, F.nextInst) ∧
      F1.blocks = Bs1 ++ ⟨blk, pre ++ ⟨F.nextInst, op, t, [S1, S2], []⟩ :: ip :: post⟩ :: Bs2 ∧
      F1.nextInst = F.nextInst + 1 := by
  have hpar : F.getParent ip.id = some blk := by
    unfold Func.getParent
    rw [hF, find?_append_skip]
    · simp [List.find?]
    · intro Y hY
      rw [List.any_eq_false]
      intro I hI1
      have := hI I (List.mem_append_left _ (mem_instsOf hY hI1))
      simpa using this
  unfold Func.createBinaryOperator
  rw [hty, hpar]
  refine ⟨_, rfl, ?_, ?_⟩
  · rw [(addUses_blocks _ _).1]
    show (F.blocks.map _) = _
    rw [hF]
    have := map_block_decomp Bs1 Bs2 ⟨blk, pre ++ ip :: post⟩
      (insertBeforeP (fun X : Inst => decide (X.id = ip.id)) [⟨F.nextInst, op, t, [S1, S2], []⟩])
      hB1 hB2
    simp only at this
    rw [this, insertBeforeP_append]
    · rfl
    · intro z hz
      have := hI z (List.mem_append_right _ hz)
      simpa using this
    · simp
  · rw [(addUses_blocks _ _).2]
    rfl


theorem find?_insert_skip {α : Type} (p : α → Bool) (l1 l2 : List α) (x : α)
    (hx : p x = false) : (l1 ++ x :: l2).find? p = (l1 ++ l2).find? p := by
  induction l1 with
  | nil => simp [List.find?, hx]
  | cons z t ih =>
    cases hz : p z <;> simp [List.find?, hz, ih]

/-- The difference computed by a `w`-bit `sub` is the distance between the bounds, read
unsigned or signed. -/
theorem sub_mod_distance (P a b : Nat) (ha : a < P) (hb : b < P) :
    (a ≤ b ∧ (b + P - a) % P = b - a) ∨ (b < a ∧ (b + P - a) % P = b + P - a) := by
  rcases Nat.lt_or_ge b a with h | h
  · right
    exact ⟨h, Nat.mod_eq_of_lt (by omega)⟩
  · left
    refine ⟨h, ?_⟩
    have e : b + P - a = (b - a) + P := by omega
    rw [e, Nat.add_mod_right]
    exact Nat.mod_eq_of_lt (by omega)

/-- In a well-formed function whose block `blk` is `pre ++ ip :: post`,
`LoopSplit::computeSplitPoint` with insertion point `ip` changes the block list only by
putting two instructions right in front of `ip`, a `sub final, initial` and then a `udiv`
of that result by `ConstantInt::get(type of final, 2)`, and returns the `udiv`; this for
every width `w` of the final value. -/
theorem computeSplitPoint_inserts_two (A : LoopAnalysis) (F : Func) (Bd : LoopBounds)
    (Bs1 Bs2 : List Block) (blk : BlockId) (pre post : List Inst) (ip : Inst) (w : Nat)
    (hA : A.bounds = some Bd)
    (hwf : F.WellFormed)
    (hF : F.blocks = Bs1 ++ ⟨blk, pre ++ ip :: post⟩ :: Bs2)
    (hty : F.typeOf Bd.finalIVValue = some w) :
    ∃ F1, LoopSplit.computeSplitPoint A F ip.id = some (F1, F.nextInst + 1) ∧
      F1.blocks = Bs1 ++ ⟨blk, pre ++
        ⟨F.nextInst, .sub, w, [Bd.finalIVValue, Bd.initialIVValue], []⟩ ::
        ⟨F.nextInst + 1, .udiv, w, [.inst F.nextInst, ConstantInt.get w 2], []⟩ ::
          ip :: post⟩ :: Bs2 := by
  obtain ⟨hnb, hni, hlt⟩ := hwf
  -- consequences of unique identities
  have hall : F.allInsts = (instsOf Bs1 ++ pre) ++ ip :: (post ++ instsOf Bs2) := by
    unfold Func.allInsts
    rw [hF, instsOf_append, instsOf_cons]
    simp
  have hB : ∀ Y ∈ Bs1 ++ Bs2, Y.id ≠ blk := by
    rw [hF, List.map_append, List.map_cons] at hnb
    have h := (List.nodup_middle.1 hnb)
    have h1 := (List.nodup_cons.1 h).1
    intro Y hY e
    apply h1
    rw [← List.map_append]
    have hm : Y.id ∈ List.map (fun B : Block => B.id) (Bs1 ++ Bs2) :=
      List.mem_map_of_mem _ hY
    rw [e] at hm
    exact hm
  have hB1 : ∀ Y ∈ Bs1, Y.id ≠ blk := fun Y hY => hB Y (List.mem_append_left _ hY)
  have hB2 : ∀ Y ∈ Bs2, Y.id ≠ blk := fun Y hY => hB Y (List.mem_append_right _ hY)
  have hI : ∀ I ∈ instsOf Bs1 ++ pre, I.id ≠ ip.id := by
    rw [hall, List.map_append, List.map_cons] at hni
    have h := (List.nodup_middle.1 hni)
    have h1 := (List.nodup_cons.1 h).1
    intro I hI1 e
    apply h1
    rw [← List.map_append]
    have hm : I.id ∈ List.map (fun J : Inst => J.id)
        ((instsOf Bs1 ++ pre) ++ (post ++ instsOf Bs2)) :=
      List.mem_map_of_mem _ (List.mem_append_left _ hI1)
    rw [e] at hm
    exact hm
  have hipn : @LT.lt Nat _ ip.id F.nextInst := hlt ip (by rw [hall]; simp)
  have hpren : ∀ I ∈ instsOf Bs1 ++ pre, @LT.lt Nat _ I.id F.nextInst := fun I hI1 =>
    hlt I (by rw [hall]; exact List.mem_append_left _ hI1)
  -- the subtraction
  obtain ⟨F1, hc1, hb1, hn1⟩ := createBinaryOperator_blocks F .sub Bd.finalIVValue
    Bd.initialIVValue w Bs1 Bs2 blk pre post ip hF hB1 hB2 hI hty
  have hall1 : F1.allInsts = (instsOf Bs1 ++ pre) ++
      ⟨F.nextInst, .sub, w, [Bd.finalIVValue, Bd.initialIVValue], []⟩ ::
        (ip :: post ++ instsOf Bs2) := by
    unfold Func.allInsts
    rw [hb1, instsOf_append, instsOf_cons]
    simp
  have hallF : F.allInsts = (instsOf Bs1 ++ pre) ++ (ip :: post ++ instsOf Bs2) := by
    rw [hall]; simp
  -- types seen after the insertion
  have htySub : F1.typeOf (.inst F.nextInst) = some w := by
    show (F1.getInst F.nextInst).map (fun I => I.ty) = some w
    unfold Func.getInst
    rw [hall1, find?_append_skip]
    · simp [List.find?]
    · intro z hz
      have hz1 := hpren z hz
      have hne : ¬ @Eq Nat z.id F.nextInst := by omega
      simpa using hne
  have htyF : F1.typeOf Bd.finalIVValue = some w := by
    cases hv : Bd.finalIVValue with
    | inst k =>
      rw [hv] at hty
      show (F1.getInst k).map (fun I => I.ty) = some w
      have hty1 : (F.getInst k).map (fun I => I.ty) = some w := hty
      unfold Func.getInst at hty1 ⊢
      rw [hall1, find?_insert_skip]
      · rw [← hallF]; exact hty1
      · cases hfd : F.allInsts.find? (fun I => decide (I.id = k)) with
        | none => rw [hfd] at hty1; cases hty1
        | some J =>
          have hJ := List.find?_some hfd
          have hJm := List.mem_of_find?_eq_some hfd
          have hJlt : @LT.lt Nat _ J.id F.nextInst := hlt J hJm
          have hJk : @Eq Nat J.id k := by simpa using hJ
          have hne : ¬ @Eq Nat F.nextInst k := by omega
          simpa using hne
    | const c d => rw [hv] at hty; exact hty
    | arg c d => rw [hv] at hty; exact hty
    | block c => rw [hv] at hty; cases hty
  -- the division
  have hF1 : F1.blocks = Bs1 ++ ⟨blk, (pre ++
      [⟨F.nextInst, .sub, w, [Bd.finalIVValue, Bd.initialIVValue], []⟩]) ++ ip :: post⟩ :: Bs2 := by
    rw [hb1]; simp
  have hI1 : ∀ I ∈ instsOf Bs1 ++ (pre ++
      [⟨F.nextInst, .sub, w, [Bd.finalIVValue, Bd.initialIVValue], []⟩]), I.id ≠ ip.id := by
    intro I hIm
    rw [← List.append_assoc] at hIm
    rcases List.mem_append.1 hIm with h | h
    · exact hI I h
    · simp at h
      rw [h]
      show ¬ @Eq Nat F.nextInst ip.id
      omega
  obtain ⟨F2, hc2, hb2, _⟩ := createBinaryOperator_blocks F1 .udiv (.inst F.nextInst)
    (ConstantInt.get w 2) w Bs1 Bs2 blk _ post ip hF1 hB1 hB2 hI1 htySub
  refine ⟨F2, ?_, ?_⟩
  · unfold LoopSplit.computeSplitPoint
    rw [hA]
    simp only []
    rw [hc1]
    simp only []
    rw [htyF]
    simp only []
    rw [hn1] at hc2
    exact hc2
  · rw [hb2, hn1]
    simp

/-- An instance of `computeSplitPoint_inserts_two`: the loop from 0 to 7 on 32 bits, with
the branch of the preheader as insertion point. -/
theorem computeSplitPoint_inserts_two_witness :
    ∃ F1, LoopSplit.computeSplitPoint (countedLoopAnalysis 32 0 7 1) (countedLoop 32 0 7 1) 2 =
        some (F1, 21) ∧
      F1.getBlock 1 = some ⟨1, [⟨20, .sub, 32, [.const 32 7, .const 32 0], []⟩,
        ⟨21, .udiv, 32, [.inst 20, .const 32 2], []⟩, ⟨2, .br, 0, [.block 2], []⟩]⟩ := by
  obtain ⟨F1, h1, h2⟩ := computeSplitPoint_inserts_two (countedLoopAnalysis 32 0 7 1)
    (countedLoop 32 0 7 1) ⟨.const 32 0, 12, some (.const 32 1), .const 32 7⟩
    [⟨0, [⟨1, .br, 0, [.block 1], []⟩]⟩]
    [ ⟨2, [⟨10, .phi, 32, [.const 32 0, .inst 12], [1, 3]⟩,
           ⟨11, .call, 0, [.inst 10], []⟩,
           ⟨3, .br, 0, [.block 3], []⟩]⟩,
      ⟨3, [⟨12, .add, 32, [.inst 10, .const 32 1], []⟩,
           ⟨13, .icmp .ult, 1, [.inst 12, .const 32 7], []⟩,
           ⟨4, .br, 0, [.inst 13, .block 2, .block 4], []⟩]⟩,
      ⟨4, [⟨5, .ret, 0, [], []⟩]⟩ ]
    1 [] [] ⟨2, .br, 0, [.block 2], []⟩ 32 rfl (by decide!) rfl rfl
  refine ⟨F1, h1, ?_⟩
  unfold Func.getBlock
  rw [h2]
  rfl

/-- From 2 bits on the split point has the value the formula names: in the setting of
`computeSplitPoint_inserts_two`, with `2 ≤ w` the divisor is the constant 2, and when the
bounds evaluate to the `w`-bit values `b` (final) and `a` (initial) the returned `udiv`
evaluates to `(b - a) / 2` if `a < b` as unsigned numbers, and to half the signed distance
if `a < b` as signed numbers. -/
theorem computeSplitPoint_spec (A : LoopAnalysis) (F : Func) (Bd : LoopBounds)
    (Bs1 Bs2 : List Block) (blk : BlockId) (pre post : List Inst) (ip : Inst)
    (w a b : Nat) (args : List Nat) (σ : ExecState)
    (hA : A.bounds = some Bd)
    (hwf : F.WellFormed)
    (hF : F.blocks = Bs1 ++ ⟨blk, pre ++ ip :: post⟩ :: Bs2)
    (hty : F.typeOf Bd.finalIVValue = some w)
    (hw : 2 ≤ w)
    (hf : evalValue args σ.env Bd.finalIVValue = some (w, b))
    (hi : evalValue args σ.env Bd.initialIVValue = some (w, a))
    (ha : a < 2 ^ w) (hb : b < 2 ^ w) :
    ∃ F1 v, LoopSplit.computeSplitPoint A F ip.id = some (F1, F.nextInst + 1) ∧
      F1.blocks = Bs1 ++ ⟨blk, pre ++
        ⟨F.nextInst, .sub, w, [Bd.finalIVValue, Bd.initialIVValue], []⟩ ::
        ⟨F.nextInst + 1, .udiv, w, [.inst F.nextInst, .const w 2], []⟩ :: ip :: post⟩ :: Bs2 ∧
      valueAfter args σ
        [⟨F.nextInst, .sub, w, [Bd.finalIVValue, Bd.initialIVValue], []⟩,
         ⟨F.nextInst + 1, .udiv, w, [.inst F.nextInst, .const w 2], []⟩]
        (F.nextInst + 1) = some (w, v) ∧
      (a < b → v = (b - a) / 2) ∧
      (toSigned w a < toSigned w b → (v : Int) = (toSigned w b - toSigned w a) / 2) := by
  obtain ⟨hnb, hni, hlt⟩ := hwf
  -- consequences of unique identities
  have hall : F.allInsts = (instsOf Bs1 ++ pre) ++ ip :: (post ++ instsOf Bs2) := by
    unfold Func.allInsts
    rw [hF, instsOf_append, instsOf_cons]
    simp
  have hB : ∀ Y ∈ Bs1 ++ Bs2, Y.id ≠ blk := by
    rw [hF, List.map_append, List.map_cons] at hnb
    have h := (List.nodup_middle.1 hnb)
    have h1 := (List.nodup_cons.1 h).1
    intro Y hY e
    apply h1
    rw [← List.map_append]
    have hm : Y.id ∈ List.map (fun B : Block => B.id) (Bs1 ++ Bs2) :=
      List.mem_map_of_mem _ hY
    rw [e] at hm
    exact hm
  have hB1 : ∀ Y ∈ Bs1, Y.id ≠ blk := fun Y hY => hB Y (List.mem_append_left _ hY)
  have hB2 : ∀ Y ∈ Bs2, Y.id ≠ blk := fun Y hY => hB Y (List.mem_append_right _ hY)
  have hI : ∀ I ∈ instsOf Bs1 ++ pre, I.id ≠ ip.id := by
    rw [hall, List.map_append, List.map_cons] at hni
    have h := (List.nodup_middle.1 hni)
    have h1 := (List.nodup_cons.1 h).1
    intro I hI1 e
    apply h1
    rw [← List.map_append]
    have hm : I.id ∈ List.map (fun J : Inst => J.id)
        ((instsOf Bs1 ++ pre) ++ (post ++ instsOf Bs2)) :=
      List.mem_map_of_mem _ (List.mem_append_left _ hI1)
    rw [e] at hm
    exact hm
  have hipn : @LT.lt Nat _ ip.id F.nextInst := hlt ip (by rw [hall]; simp)
  have hpren : ∀ I ∈ instsOf Bs1 ++ pre, @LT.lt Nat _ I.id F.nextInst := fun I hI1 =>
    hlt I (by rw [hall]; exact List.mem_append_left _ hI1)
  -- the subtraction
  obtain ⟨F1, hc1, hb1, hn1⟩ := createBinaryOperator_blocks F .sub Bd.finalIVValue
    Bd.initialIVValue w Bs1 Bs2 blk pre post ip hF hB1 hB2 hI hty
  have hall1 : F1.allInsts = (instsOf Bs1 ++ pre) ++
      ⟨F.nextInst, .sub, w, [Bd.finalIVValue, Bd.initialIVValue], []⟩ ::
        (ip :: post ++ instsOf Bs2) := by
    unfold Func.allInsts
    rw [hb1, instsOf_append, instsOf_cons]
    simp
  have hallF : F.allInsts = (instsOf Bs1 ++ pre) ++ (ip :: post ++ instsOf Bs2) := by
    rw [hall]; simp
  -- types seen after the insertion
  have htySub : F1.typeOf (.inst F.nextInst) = some w := by
    show (F1.getInst F.nextInst).map (fun I => I.ty) = some w
    unfold Func.getInst
    rw [hall1, find?_append_skip]
    · simp [List.find?]
    · intro z hz
      have hz1 := hpren z hz
      have hne : ¬ @Eq Nat z.id F.nextInst := by omega
      simpa using hne
  have htyF : F1.typeOf Bd.finalIVValue = some w := by
    cases hv : Bd.finalIVValue with
    | inst k =>
      rw [hv] at hty
      show (F1.getInst k).map (fun I => I.ty) = some w
      have hty1 : (F.getInst k).map (fun I => I.ty) = some w := hty
      unfold Func.getInst at hty1 ⊢
      rw [hall1, find?_insert_skip]
      · rw [← hallF]; exact hty1
      · cases hfd : F.allInsts.find? (fun I => decide (I.id = k)) with
        | none => rw [hfd] at hty1; cases hty1
        | some J =>
          have hJ := List.find?_some hfd
          have hJm := List.mem_of_find?_eq_some hfd
          have hJlt : @LT.lt Nat _ J.id F.nextInst := hlt J hJm
          have hJk : @Eq Nat J.id k := by simpa using hJ
          have hne : ¬ @Eq Nat F.nextInst k := by omega
          simpa using hne
    | const c d => rw [hv] at hty; exact hty
    | arg c d => rw [hv] at hty; exact hty
    | block c => rw [hv] at hty; cases hty
  -- the division
  have hF1 : F1.blocks = Bs1 ++ ⟨blk, (pre ++
      [⟨F.nextInst, .sub, w, [Bd.finalIVValue, Bd.initialIVValue], []⟩]) ++ ip :: post⟩ :: Bs2 := by
    rw [hb1]; simp
  have hI1 : ∀ I ∈ instsOf Bs1 ++ (pre ++
      [⟨F.nextInst, .sub, w, [Bd.finalIVValue, Bd.initialIVValue], []⟩]), I.id ≠ ip.id := by
    intro I hIm
    rw [← List.append_assoc] at hIm
    rcases List.mem_append.1 hIm with h | h
    · exact hI I h
    · simp at h
      rw [h]
      show ¬ @Eq Nat F.nextInst ip.id
      omega
  have h2w : 2 % 2 ^ w = 2 := by
    apply Nat.mod_eq_of_lt
    calc 2 < 2 ^ 2 := by decide
      _ ≤ 2 ^ w := Nat.pow_le_pow_right (by decide) hw
  obtain ⟨F2, hc2, hb2, _⟩ := createBinaryOperator_blocks F1 .udiv (.inst F.nextInst)
    (ConstantInt.get w 2) w Bs1 Bs2 blk _ post ip hF1 hB1 hB2 hI1 htySub
  have hd := sub_mod_distance (2 ^ w) a b ha hb
  refine ⟨F2, (b + 2 ^ w - a) % 2 ^ w / 2, ?_, ?_, ?_, ?_, ?_⟩
  · unfold LoopSplit.computeSplitPoint
    rw [hA]
    simp only []
    rw [hc1]
    simp only []
    rw [htyF]
    simp only []
    rw [hn1] at hc2
    exact hc2
  · rw [hb2, hn1]
    simp [ConstantInt.get, h2w]
  · have e1 : execInst args σ
        ⟨F.nextInst, .sub, w, [Bd.finalIVValue, Bd.initialIVValue], []⟩ =
        some ⟨(F.nextInst, (w, (b + 2 ^ w - a) % 2 ^ w)) :: σ.env, σ.trace⟩ := by
      simp [execInst, hf, hi, evalBinary]
    have e2 : execInst args ⟨(F.nextInst, (w, (b + 2 ^ w - a) % 2 ^ w)) :: σ.env, σ.trace⟩
        ⟨F.nextInst + 1, .udiv, w, [.inst F.nextInst, .const w 2], []⟩ =
        some ⟨(F.nextInst + 1, (w, (b + 2 ^ w - a) % 2 ^ w / 2)) ::
          (F.nextInst, (w, (b + 2 ^ w - a) % 2 ^ w)) :: σ.env, σ.trace⟩ := by
      simp [execInst, evalValue, mapFind, evalBinary, h2w]
    simp [valueAfter, execInsts, foldOpt, e1, e2, mapFind]
  · intro hab
    rcases hd with ⟨_, e⟩ | ⟨h, _⟩
    · rw [e]
    · omega
  · intro hs
    unfold toSigned at hs ⊢
    generalize 2 ^ w = P at *
    rcases hd with ⟨h, e⟩ | ⟨h, e⟩ <;> rw [e] <;> split_ifs at hs ⊢ <;> omega


/-- An instance of `computeSplitPoint_spec`: bounds 0 and 7 on 32 bits give the split
point 3. -/
theorem computeSplitPoint_spec_witness :
    ∃ F1, LoopSplit.computeSplitPoint (countedLoopAnalysis 32 0 7 1) (countedLoop 32 0 7 1) 2 =
        some (F1, 21) ∧
      F1.getBlock 1 = some ⟨1, [⟨20, .sub, 32, [.const 32 7, .const 32 0], []⟩,
        ⟨21, .udiv, 32, [.inst 20, .const 32 2], []⟩, ⟨2, .br, 0, [.block 2], []⟩]⟩ ∧
      valueAfter [] ⟨[], []⟩ [⟨20, .sub, 32, [.const 32 7, .const 32 0], []⟩,
        ⟨21, .udiv, 32, [.inst 20, .const 32 2], []⟩] 21 = some (32, 3) := by
  obtain ⟨F1, v, h1, h2, h3, h4, _⟩ := computeSplitPoint_spec (countedLoopAnalysis 32 0 7 1)
    (countedLoop 32 0 7 1) ⟨.const 32 0, 12, some (.const 32 1), .const 32 7⟩
    [⟨0, [⟨1, .br, 0, [.block 1], []⟩]⟩]
    [ ⟨2, [⟨10, .phi, 32, [.const 32 0, .inst 12], [1, 3]⟩,
           ⟨11, .call, 0, [.inst 10], []⟩,
           ⟨3, .br, 0, [.block 3], []⟩]⟩,
      ⟨3, [⟨12, .add, 32, [.inst 10, .const 32 1], []⟩,
           ⟨13, .icmp .ult, 1, [.inst 12, .const 32 7], []⟩,
           ⟨4, .br, 0, [.inst 13, .block 2, .block 4], []⟩]⟩,
      ⟨4, [⟨5, .ret, 0, [], []⟩]⟩ ]
    1 [] [] ⟨2, .br, 0, [.block 2], []⟩ 32 0 7 [] ⟨[], []⟩
    rfl (by decide!) rfl rfl (by decide) (by decide!) (by decide!) (by decide!) (by decide!)
  have hv : v = 3 := h4 (by decide)
  subst hv
  refine ⟨F1, h1, ?_, h3⟩
  unfold Func.getBlock
  rw [h2]
  rfl

/-- C6 (code defect): the 1-bit loop from 0 to 1 (`countedLoop 1 0 1 1`, final > initial) is
accepted by `LoopSplit::isCandidate` and performs its one call. `computeSplitPoint`, with
the branch of the preheader as insertion point, emits `sub i1 1, 0` and
`udiv i1 %20, 0`: the divisor `ConstantInt::get(i1, 2)` keeps the low bit of 2, which is 0.
The returned `udiv` has no value, so it does not evaluate to `(1 - 0) / 2`, and the
function left by `LoopSplit::run` stops at it in the preheader, before any call. -/
theorem computeSplitPoint_i1_has_no_value :
    LoopSplit.isCandidate (countedLoopAnalysis 1 0 1 1) (countedLoop 1 0 1 1)
      ⟨0, [2, 3], none, []⟩ = true ∧
    (countedLoop 1 0 1 1).run [] 100 = .returned [0] ∧
    ConstantInt.get 1 2 = .const 1 0 ∧
    (LoopSplit.computeSplitPoint (countedLoopAnalysis 1 0 1 1) (countedLoop 1 0 1 1) 2).map
        (fun r => (r.2, r.1.getBlock 1)) =
      some (21, some ⟨1, [⟨20, .sub, 1, [.const 1 1, .const 1 0], []⟩,
        ⟨21, .udiv, 1, [.inst 20, .const 1 0], []⟩, ⟨2, .br, 0, [.block 2], []⟩]⟩) ∧
    valueAfter [] ⟨[], []⟩ [⟨20, .sub, 1, [.const 1 1, .const 1 0], []⟩,
        ⟨21, .udiv, 1, [.inst 20, .const 1 0], []⟩] 21 = none ∧
    valueAfter [] ⟨[], []⟩ [⟨20, .sub, 1, [.const 1 1, .const 1 0], []⟩,
        ⟨21, .udiv, 1, [.inst 20, .const 1 0], []⟩] 21 ≠ some (1, (1 - 0) / 2) ∧
    (LoopSplit.run (countedLoopAnalysis 1 0 1 1) (countedLoopState 1 0 1 1) 0).map
      (fun r => (r.1, r.2.F.getBlock 1, r.2.F.run [] 100)) =
      some (true,
        some ⟨1, [⟨20, .sub, 1, [.const 1 1, .const 1 0], []⟩,
          ⟨21, .udiv, 1, [.inst 20, .const 1 0], []⟩, ⟨22, .br, 0, [.block 6], []⟩]⟩,
        .stuck []) := by
  decide!

/-! ### Splitting -/

/-- The split of the loop from 0 to 10: the split point is 5, the clone runs 0..4 and the
original 5..9, as the unsplit loop does. -/
theorem split_zero_to_ten :
    (countedLoop 32 0 10 1).run [] 100 = .returned [0, 1, 2, 3, 4, 5, 6, 7, 8, 9] ∧
    (LoopSplit.run (countedLoopAnalysis 32 0 10 1) (countedLoopState 32 0 10 1) 0).map
      (fun r => (r.1, r.2.F.run [] 100)) =
      some (true, .returned [0, 1, 2, 3, 4, 5, 6, 7, 8, 9]) := by
  decide!

/-- C1 (code defect): the loop from 6 to 10 (step 1, `icmp ult` on the stepped value in the
latch) is accepted by `LoopSplit::isCandidate` and visits 6, 7, 8, 9. After
`LoopSplit::run` the split point `%21` is `(10 - 6) / 2 = 2`; it bounds the latch
comparison `%28` of the clone and starts the phi `%10` of the original: the clone visits 6
and the original loop, restarted at 2, visits 2..9. -/
theorem split_six_to_ten_changes_iterations :
    LoopSplit.isCandidate (countedLoopAnalysis 32 6 10 1) (countedLoop 32 6 10 1)
      ⟨0, [2, 3], none, []⟩ = true ∧
    (countedLoop 32 6 10 1).run [] 100 = .returned [6, 7, 8, 9] ∧
    (LoopSplit.run (countedLoopAnalysis 32 6 10 1) (countedLoopState 32 6 10 1) 0).map
      (fun r => (r.1, r.2.F.run [] 100,
        [r.2.F.getInst 20, r.2.F.getInst 21, r.2.F.getInst 28, r.2.F.getInst 10])) =
      some (true, .returned [6, 2, 3, 4, 5, 6, 7, 8, 9],
        [some ⟨20, .sub, 32, [.const 32 10, .const 32 6], []⟩,
         some ⟨21, .udiv, 32, [.inst 20, .const 32 2], []⟩,
         some ⟨28, .icmp .ult, 1, [.inst 27, .inst 21], []⟩,
         some ⟨10, .phi, 32, [.inst 21, .inst 12], [5, 3]⟩]) := by
  decide!

/-! ### Unrolling -/

/-- On the loop of `countedLoop` from 0 to 10 (32-bit, step 1) the unrolled function
performs the same calls as the original, the step instruction `%12` takes the new
`mul 1, 5`, which evaluates to 5, and the step clones of the four stages keep the step 1. -/
theorem unroll_zero_to_ten :
    (LoopUnrollTwice.run (countedLoopAnalysis 32 0 10 1) (countedLoopState 32 0 10 1) 0).map
      (fun r => (r.1, r.2.F.run [] 100, r.2.F.getBlock 3,
        [r.2.F.getInst 21, r.2.F.getInst 24, r.2.F.getInst 27, r.2.F.getInst 30])) =
      some (true, .returned [0, 1, 2, 3, 4, 5, 6, 7, 8, 9],
        some ⟨3, [⟨32, .mul, 32, [.const 32 1, .const 32 5], []⟩,
          ⟨12, .add, 32, [.inst 10, .inst 32], []⟩,
          ⟨13, .icmp .ult, 1, [.inst 12, .const 32 10], []⟩,
          ⟨4, .br, 0, [.inst 13, .block 2, .block 4], []⟩]⟩,
        [some ⟨21, .add, 32, [.inst 10, .const 32 1], []⟩,
         some ⟨24, .add, 32, [.inst 21, .const 32 1], []⟩,
         some ⟨27, .add, 32, [.inst 24, .const 32 1], []⟩,
         some ⟨30, .add, 32, [.inst 27, .const 32 1], []⟩]) ∧
    valueAfter [] ⟨[], []⟩ [⟨32, .mul, 32, [.const 32 1, .const 32 5], []⟩] 32 = some (32, 5) := by
  decide!

/-- C2 (code defect): `latchEffectLoop` and `latchPhiLoop` (header and latch, bounds known,
constant step 1, ten trips) are accepted by `LoopUnrollTwice::run`. In the first the
original performs the header call and the latch call in every iteration, the unrolled
loop the header call five times and the latch call once per trip. In the second the call
is in the header and reads a phi advanced in the latch: the original passes 0, 3, .., 27,
the five copies of the unrolled loop all pass the value of the first of their five
iterations. -/
theorem unroll_leaves_latch_work_out :
    LoopUnrollTwice.isCandidate (countedLoopAnalysis 32 0 10 1) latchEffectLoop
      ⟨0, [2, 3], none, []⟩ = true ∧
    latchEffectLoop.run [] 100 = .returned
      [0, 100, 1, 101, 2, 102, 3, 103, 4, 104, 5, 105, 6, 106, 7, 107, 8, 108, 9, 109] ∧
    (LoopUnrollTwice.run (countedLoopAnalysis 32 0 10 1) latchEffectState 0).map
      (fun r => (r.1, r.2.F.run [] 100)) =
      some (true, .returned [0, 1, 2, 3, 4, 100, 5, 6, 7, 8, 9, 105]) ∧
    LoopUnrollTwice.isCandidate (countedLoopAnalysis 32 0 10 1) latchPhiLoop
      ⟨0, [2, 3], none, []⟩ = true ∧
    latchPhiLoop.run [] 100 = .returned [0, 3, 6, 9, 12, 15, 18, 21, 24, 27] ∧
    (LoopUnrollTwice.run (countedLoopAnalysis 32 0 10 1) latchPhiState 0).map
      (fun r => (r.1, r.2.F.run [] 100)) =
      some (true, .returned [0, 0, 0, 0, 0, 3, 3, 3, 3, 3]) := by
  decide!

/-- C7 (code defect): on the 64-bit loop from 0 to 10 with step 1, accepted by
`LoopUnrollTwice::run`, the step operand of `%12` becomes `mul i64 1, i32 5`: the factor is
the 32-bit constant whatever the type of the step. The multiplication is ill-typed and has
no value, and the unrolled function stops at it. -/
theorem unroll_i64_step_factor_is_i32 :
    LoopUnrollTwice.isCandidate (countedLoopAnalysis 64 0 10 1) (countedLoop 64 0 10 1)
      ⟨0, [2, 3], none, []⟩ = true ∧
    (countedLoop 64 0 10 1).run [] 100 = .returned [0, 1, 2, 3, 4, 5, 6, 7, 8, 9] ∧
    (LoopUnrollTwice.run (countedLoopAnalysis 64 0 10 1) (countedLoopState 64 0 10 1) 0).map
      (fun r => (r.1, r.2.F.getInst 12, r.2.F.getInst 32, r.2.F.run [] 100)) =
      some (true, some ⟨12, .add, 64, [.inst 10, .inst 32], []⟩,
        some ⟨32, .mul, 64, [.const 64 1, .const 32 5], []⟩, .stuck [0, 1, 2, 3, 4]) ∧
    valueAfter [] ⟨[], []⟩ [⟨32, .mul, 64, [.const 64 1, .const 32 5], []⟩] 32 = none := by
  decide!

/-- C8 (code defect): the loop `i += n` with the step a function argument is accepted by
`LoopUnrollTwice::isCandidate` and has bounds, and runs; `UnrollLoop` does not complete on
it (the cast of the step to a constant gives null, which is then dereferenced). -/
theorem unroll_fails_on_variable_step :
    LoopUnrollTwice.isCandidate (loopAnalysisOf (.const 32 0) (.const 32 10) (.arg 32 0))
      (loopOf 32 (.const 32 0) (.const 32 10) (.arg 32 0)) ⟨0, [2, 3], none, []⟩ = true ∧
    (loopAnalysisOf (.const 32 0) (.const 32 10) (.arg 32 0)).bounds.isSome = true ∧
    (loopOf 32 (.const 32 0) (.const 32 10) (.arg 32 0)).run [2] 100 =
      .returned [0, 2, 4, 6, 8] ∧
    LoopUnrollTwice.run (loopAnalysisOf (.const 32 0) (.const 32 10) (.arg 32 0))
      ⟨loopOf 32 (.const 32 0) (.const 32 10) (.arg 32 0), countedLoopInfo⟩ 0 = none := by
  decide!

/-- `LoopUnrollTwice::isCandidate` also lets through the single-block loop, on which the latch (the header
itself) has two predecessors: `UnrollLoop` stops at the first stage. -/
theorem unroll_fails_on_single_block :
    singleBlockLoop.getSinglePredecessor 2 = none ∧
    LoopUnrollTwice.run (countedLoopAnalysis 32 0 10 1) singleBlockState 0 = none := by
  decide!

/-- C9 (code defect): `emptyHeaderLoop`, whose header holds only the phi and the branch, is
accepted by `LoopUnrollTwice::isCandidate`. After one stage (`UF = 2`) the branch made for
the stage sits in the header, behind the header's own branch, and the stage block `5` holds
the step clone and no terminator; with three stages (`UF = 4`) the header holds four
branches; with `UF = 5` the fourth stage finds two predecessor edges into the latch and
`UnrollLoop` does not complete. -/
theorem unroll_empty_header_misplaces_terminators :
    LoopUnrollTwice.isCandidate (countedLoopAnalysis 32 0 10 1) emptyHeaderLoop
      ⟨0, [2, 3], none, []⟩ = true ∧
    (UnrollLoop (countedLoopAnalysis 32 0 10 1) emptyHeaderState 0 2
        ⟨.const 32 0, 12, some (.const 32 1), .const 32 10⟩).map
      (fun S => (S.F.getBlock 2, S.F.getBlock 5)) =
      some (some ⟨2, [⟨10, .phi, 32, [.const 32 0, .inst 12], [1, 3]⟩,
                      ⟨3, .br, 0, [.block 5], []⟩, ⟨20, .br, 0, [.block 3], []⟩]⟩,
            some ⟨5, [⟨21, .add, 32, [.inst 10, .const 32 1], []⟩]⟩) ∧
    (UnrollLoop (countedLoopAnalysis 32 0 10 1) emptyHeaderState 0 4
        ⟨.const 32 0, 12, some (.const 32 1), .const 32 10⟩).map
      (fun S => ((S.F.getBlock 2).map (fun B => B.insts.map (fun I => I.op)),
        [5, 6, 7].map (fun b => (S.F.getBlock b).bind (fun B => B.getTerminator)),
        S.F.predecessors 3)) =
      some (some [.phi, .br, .br, .br, .br], [none, none, none], [2, 2]) ∧
    LoopUnrollTwice.run (countedLoopAnalysis 32 0 10 1) emptyHeaderState 0 = none := by
  decide!

/-- C10 (code defect): in `sharedPhiLoop` the header instruction `%16` is the back-edge
value of the header phis `%14` and `%15`. Whichever of the two `users()` meets last is the
one recorded for `%16`; after `LoopUnrollTwice::run` only that phi takes the stage-4 clone
`%34`, the other still takes `%16`, and the stage clones of `%16` (`%22` in stage 1, `%34`
in stage 4) still read the other phi itself. -/
theorem unroll_rewires_one_phi_per_instruction :
    (LoopUnrollTwice.run (countedLoopAnalysis 32 0 10 1) (sharedPhiState false) 0).map
      (fun r => (r.1, [r.2.F.getInst 14, r.2.F.getInst 15, r.2.F.getInst 22,
        r.2.F.getInst 34])) =
      some (true,
        [some ⟨14, .phi, 32, [.const 32 0, .inst 16], [1, 3]⟩,
         some ⟨15, .phi, 32, [.const 32 1, .inst 34], [1, 3]⟩,
         some ⟨22, .add, 32, [.inst 14, .inst 16], []⟩,
         some ⟨34, .add, 32, [.inst 14, .inst 30], []⟩]) ∧
    (LoopUnrollTwice.run (countedLoopAnalysis 32 0 10 1) (sharedPhiState true) 0).map
      (fun r => (r.1, [r.2.F.getInst 14, r.2.F.getInst 15, r.2.F.getInst 22,
        r.2.F.getInst 34])) =
      some (true,
        [some ⟨14, .phi, 32, [.const 32 0, .inst 34], [1, 3]⟩,
         some ⟨15, .phi, 32, [.const 32 1, .inst 16], [1, 3]⟩,
         some ⟨22, .add, 32, [.inst 16, .inst 15], []⟩,
         some ⟨34, .add, 32, [.inst 30, .inst 15], []⟩]) ∧
    LoopUnrollTwice.isCandidate (countedLoopAnalysis 32 0 10 1) (sharedPhiLoop false)
      ⟨0, [2, 3], none, []⟩ = true ∧
    LoopUnrollTwice.isCandidate (countedLoopAnalysis 32 0 10 1) (sharedPhiLoop true)
      ⟨0, [2, 3], none, []⟩ = true := by
  decide!


/-! ### Patching the bounds -/

/-- With the upper bound in operand 1 of the latch comparison (`icmp ult %12, 10`),
`LoopSplit::run` puts the split point `%21` in operand 1 of the clone's comparison `%30`
and keeps its operand 0 (the cloned step `%29`); the phi `%10` of the original takes `%21`
from the preheader edge and keeps `%12` on the back edge, the other header phi `%14` keeps
its values, and the split function performs the calls of the original. -/
theorem split_patches_bound_in_operand_one :
    (LoopSplit.run (countedLoopAnalysis 32 0 10 1) (boundLoopState false) 0).map
      (fun r => (r.1, LoopSplit.getLatchCmpInst r.2.F ⟨1, [7, 8], none, []⟩,
        [r.2.F.getInst 21, r.2.F.getInst 30, r.2.F.getInst 10, r.2.F.getInst 14],
        r.2.F.run [] 100)) =
      some (true, some 30,
        [some ⟨21, .udiv, 32, [.inst 20, .const 32 2], []⟩,
         some ⟨30, .icmp .ult, 1, [.inst 29, .inst 21], []⟩,
         some ⟨10, .phi, 32, [.inst 21, .inst 12], [5, 3]⟩,
         some ⟨14, .phi, 32, [.const 32 100, .inst 15], [5, 3]⟩],
        .returned [0, 1, 2, 3, 4, 5, 6, 7, 8, 9]) := by
  decide!

/-- C11 (code defect): `boundLoop true`, whose latch comparison is `icmp ugt 10, %12` with
the upper bound in operand 0, is accepted by `LoopSplit::isCandidate` and performs the
calls 0..9. After `LoopSplit::run` the comparison `%30` of the cloned latch is
`icmp ugt 10, %21`: operand 1, which held the cloned step `%29`, was overwritten by the
split point and the upper bound in operand 0 was kept, so the clone never leaves (it goes
on to call 10, 11, ..). In the original loop the phi `%10` takes `%21` from the preheader
edge and keeps `%12` on the back edge, and the other header phi `%14` keeps its values. -/
theorem split_overwrites_operand_one_of_latch_compare :
    LoopSplit.isCandidate (countedLoopAnalysis 32 0 10 1) (boundLoop true)
      ⟨0, [2, 3], none, []⟩ = true ∧
    (boundLoop true).getInst 13 = some ⟨13, .icmp .ugt, 1, [.const 32 10, .inst 12], []⟩ ∧
    (boundLoop true).run [] 100 = .returned [0, 1, 2, 3, 4, 5, 6, 7, 8, 9] ∧
    (LoopSplit.run (countedLoopAnalysis 32 0 10 1) (boundLoopState true) 0).map
      (fun r => (r.1, LoopSplit.getLatchCmpInst r.2.F ⟨1, [7, 8], none, []⟩,
        [r.2.F.getInst 21, r.2.F.getInst 30, r.2.F.getInst 10, r.2.F.getInst 14],
        r.2.F.run [] 30)) =
      some (true, some 30,
        [some ⟨21, .udiv, 32, [.inst 20, .const 32 2], []⟩,
         some ⟨30, .icmp .ugt, 1, [.const 32 10, .inst 21], []⟩,
         some ⟨10, .phi, 32, [.inst 21, .inst 12], [5, 3]⟩,
         some ⟨14, .phi, 32, [.const 32 100, .inst 15], [5, 3]⟩],
        .outOfFuel [0, 1, 2, 3, 4, 5, 6, 7, 8, 9, 10, 11, 12, 13]) ∧
    (LoopSplit.run (countedLoopAnalysis 32 0 10 1) (boundLoopState true) 0).map
      (fun r => r.2.LI.getLoop 1) = some (some ⟨1, [7, 8], none, []⟩) := by
  decide!

end LoopPass
